import Mathlib

/-!
# pdf-labeler: a verification development of `src/index.js`

`index.js` reads a template PDF, a newline separated name list and a font, and for
every name loads a fresh copy of the template, draws the name on each page, and
copies the pages into one output document that is finally written to disk.

The program is embedded as a state-passing computation with exceptions (`Eff`).
The state (`World`) holds what JavaScript keeps outside the local variables of
`main`: the allocation counter that gives documents their identity, the
progress bar singleton and the trace of calls made to the outside (console,
file system, progress bar, pdf-lib).

The third-party pieces (`fs`, `path`, `process`, `pdf-lib`, `cli-progress`) are not part
of the repository.  They enter through `Env`: parsing, measuring, serialising and
every possible failure are parameters, while the document structure that
`main` manipulates (a document is a list of pages, a page records the text
drawn on it) is modelled explicitly.

Every call that parses, measures, draws, serialises, copies or appends may throw: its
failure is a parameter in `Env`, and so is every file access.  The console, the progress
bar, `PDFDocument.create`, `registerFontkit`, `getPageCount`, `getPages`, `getSize` and
`rgb(0, 0, 0)` are taken to return normally.

The progress bar of lines 9 to 17 is a `cli-progress` `SingleBar` made without the option
`noTTYOutput`: it is created with total 100 and value 0, and it ignores `start` and
`increment` unless its stream is a terminal (`Env.isTTY`).  The calls are recorded in the
trace in both cases.

JavaScript numbers are IEEE-754 doubles.  The program is embedded over an abstract number
type (`Num` with the operations of `NumOps`), so that no property of exact arithmetic is
assumed; `Double` is the binary64 instance, used where a property depends on rounding.

A `for` loop is a function by recursion on the number of rounds that remain; it is
started with the loop bound and index `0`.
-/

namespace PdfLabeler

/-! ## Data model -/

/-- Binary data (a `Buffer` or `Uint8Array`). -/
abbrev Bytes := List Nat

/-- A JavaScript error object, reduced to the two fields that `index.js` reads and writes. -/
structure JSError where
  name : String
  message : String
deriving DecidableEq

/-- The arithmetic on JavaScript numbers that `main` uses: numeric literals,
subtraction and multiplication. -/
structure NumOps (Num : Type) where
  lit : Nat → Num
  sub : Num → Num → Num
  mul : Num → Num → Num

/-- The colour object built by pdf-lib's `rgb`. -/
structure Color (Num : Type) where
  red : Num
  green : Num
  blue : Num
deriving DecidableEq

/-- The value of pdf-lib's `rgb(r, g, b)`. -/
def rgb {Num : Type} (r g b : Num) : Color Num :=
  { red := r, green := g, blue := b }

/-- A font embedded in a document (pdf-lib `PDFFont`): the document it was embedded
into and the font program. -/
structure PDFFont where
  doc : Nat
  program : Bytes
deriving DecidableEq

/-- The options object passed to `drawText`. -/
structure DrawTextOptions (Num : Type) where
  x : Num
  y : Num
  size : Num
  font : PDFFont
  color : Color Num
deriving DecidableEq

/-- One text draw recorded on a page. -/
structure TextDraw (Num : Type) where
  text : String
  options : DrawTextOptions Num
deriving DecidableEq

/-- A page as the parser delivers it: its size and its content. -/
structure ParsedPage (Num : Type) where
  width : Num
  height : Num
  content : Bytes
deriving DecidableEq

/-- A page of a document (pdf-lib `PDFPage`): the parsed size and content, and the
text drawn on it since it was parsed, oldest first. -/
structure PDFPage (Num : Type) where
  width : Num
  height : Num
  content : Bytes
  drawn : List (TextDraw Num)
deriving DecidableEq

/-- A document (pdf-lib `PDFDocument`). `id` stands for the identity of the JavaScript
object. -/
structure PDFDocument (Num : Type) where
  id : Nat
  fontkit : Bool
  fonts : List PDFFont
  pages : List (PDFPage Num)
deriving DecidableEq

/-- The state of the `cli-progress` bar created at the top of `index.js`: its total, its
value and whether it has been started (its redraw timer is set). -/
structure ProgressBar where
  total : Nat
  value : Nat
  isActive : Bool
deriving DecidableEq

/-- The bar as the constructor call of lines 9 to 17 leaves it: total 100, value 0, not
started. -/
def ProgressBar.created : ProgressBar :=
  { total := 100, value := 0, isActive := false }

/-- The effect of `start(total, startValue)` on the bar. The bar of lines 9 to 17 is made
without the option `noTTYOutput`, so `start` returns at once unless the stream of the bar is
a terminal. -/
def ProgressBar.start (isTTY : Bool) (total startValue : Nat) (bar : ProgressBar) :
    ProgressBar :=
  if isTTY then { total := total, value := startValue, isActive := true } else bar

/-- The effect of `increment()` on the bar: the value grows by one, unless the bar has not
been started, in which case the update is dropped. -/
def ProgressBar.increment (bar : ProgressBar) : ProgressBar :=
  if bar.isActive then { bar with value := bar.value + 1 } else bar

/-- The effect of `stop()` on the bar. -/
def ProgressBar.stop (bar : ProgressBar) : ProgressBar :=
  { bar with isActive := false }

/-- Calls that leave `index.js`, recorded when they are made. A `save` event holds the
document as it is when it is serialised. -/
inductive Event (Num : Type) where
  | consoleLog (line : String)
  | consoleError (line : String)
  | progressStart (total : Nat) (startValue : Nat)
  | progressIncrement
  | progressStop
  | readFileSync (path : String)
  | writeFileSync (path : String) (data : Bytes)
  | create (doc : Nat)
  | load (bytes : Bytes)
  | embedFont (doc : Nat) (font : Bytes)
  | widthOfTextAtSize (font : PDFFont) (text : String) (size : Num)
  | drawText (doc : Nat) (page : Nat) (text : String) (options : DrawTextOptions Num)
  | save (doc : PDFDocument Num)
  | copyPages (dst : Nat) (src : Nat) (indices : List (Option Nat))
  | addPage (doc : Nat)
deriving DecidableEq

/-- What lives outside the local variables of `main`. -/
structure World (Num : Type) where
  nextDoc : Nat
  progressBar : ProgressBar
  trace : List (Event Num)
deriving DecidableEq

/-- The surroundings of the program: process settings, file system and the behaviour
of pdf-lib that is not modelled structurally. An `Option JSError` or `Except JSError _`
result says whether the call throws. `isTTY` says whether the stream that the progress
bar writes to is a terminal. `load` is the parser, a function of the bytes;
`loadFailure` is a failure of `PDFDocument.load` that does not come from the bytes and may
depend on the call (its argument is the number of documents made so far). -/
structure Env (Num : Type) where
  num : NumOps Num
  nodeEnv : Option String
  execPath : String
  dirname : String
  isTTY : Bool
  pathJoin : String → String → String
  readFileSync : String → Except JSError Bytes
  readFileSyncUtf8 : String → Except JSError String
  writeFileSync : String → Bytes → Option JSError
  load : Bytes → Except JSError (List (ParsedPage Num))
  loadFailure : Nat → Bytes → Option JSError
  embedFont : PDFDocument Num → Bytes → Option JSError
  widthOfTextAtSize : PDFFont → String → Num → Except JSError Num
  drawText : Nat → Nat → PDFPage Num → TextDraw Num → Option JSError
  save : PDFDocument Num → Except JSError Bytes
  copyPages : PDFDocument Num → PDFDocument Num → List (Option Nat) → Option JSError
  addPage : PDFDocument Num → Option (PDFPage Num) → Option JSError
  blankPage : PDFPage Num

/-! ## Computations with effects and exceptions -/

/-- A computation that reads and updates the world and either returns a value or
throws. The world survives a throw, as side effects do in JavaScript. -/
def Eff (Num : Type) (α : Type) : Type :=
  World Num → Except JSError α × World Num

/-- Return a value without touching the world. -/
def Eff.pure {Num α : Type} (a : α) : Eff Num α :=
  fun w => (Except.ok a, w)

/-- Run `x`, then `f` on its value; a throw of `x` skips `f`. -/
def Eff.bind {Num α β : Type} (x : Eff Num α) (f : α → Eff Num β) : Eff Num β :=
  fun w =>
    match x w with
    | (Except.ok a, w1) => f a w1
    | (Except.error e, w1) => (Except.error e, w1)

instance instMonadEff {Num : Type} : Monad (Eff Num) where
  pure := Eff.pure
  bind := Eff.bind

/-- Outcomes can be compared when errors and values can. -/
instance instDecidableEqExcept {ε α : Type} [DecidableEq ε] [DecidableEq α] :
    DecidableEq (Except ε α)
  | Except.ok a, Except.ok b =>
    if h : a = b then isTrue (congrArg Except.ok h)
    else isFalse fun h2 => h (Except.ok.inj h2)
  | Except.error a, Except.error b =>
    if h : a = b then isTrue (congrArg Except.error h)
    else isFalse fun h2 => h (Except.error.inj h2)
  | Except.ok _, Except.error _ => isFalse fun h => Except.noConfusion h
  | Except.error _, Except.ok _ => isFalse fun h => Except.noConfusion h

/-- JavaScript `throw`. -/
def throwJS {Num α : Type} (e : JSError) : Eff Num α :=
  fun w => (Except.error e, w)

/-- JavaScript `try body catch (error) handler`. -/
def tryCatch {Num α : Type} (body : Eff Num α) (handler : JSError → Eff Num α) : Eff Num α :=
  fun w =>
    match body w with
    | (Except.ok a, w1) => (Except.ok a, w1)
    | (Except.error e, w1) => handler e w1

/-- Record a call in the trace. -/
def emit {Num : Type} (ev : Event Num) : Eff Num Unit :=
  fun w => (Except.ok (), { w with trace := w.trace ++ [ev] })

/-- Return the value of an outside call or throw its error. -/
def ofExcept {Num α : Type} (r : Except JSError α) : Eff Num α :=
  fun w => (r, w)

/-- Throw the error of an outside call that returns nothing. -/
def ofFailure {Num : Type} (r : Option JSError) : Eff Num Unit :=
  fun w =>
    match r with
    | some e => (Except.error e, w)
    | none => (Except.ok (), w)

/-- The `TypeError` raised by a property access on `undefined`. -/
def typeError : JSError :=
  { name := "TypeError", message := "Cannot read properties of undefined" }

/-! ## The JavaScript and library operations used by `index.js` -/

/-- Scan for `String.prototype.split` with a one-character separator: `cur` is the
entry being read. -/
def splitLoop (sep : Char) : List Char → List Char → List (List Char)
  | cur, [] => [cur]
  | cur, c :: cs =>
    if c = sep then cur :: splitLoop sep [] cs else splitLoop sep (cur ++ [c]) cs

/-- The value of `s.split(sep)` for a one-character separator. -/
def split (s : String) (sep : Char) : List String :=
  (splitLoop sep [] s.data).map String.mk

/-- The newline character, the separator in `nameListFile.split("\n")`. -/
def newline : Char := Char.ofNat 10

/-- The call `console.log(line)`. -/
def consoleLog {Num : Type} (line : String) : Eff Num Unit :=
  emit (Event.consoleLog line)

/-- The call `console.error(line)`. -/
def consoleError {Num : Type} (line : String) : Eff Num Unit :=
  emit (Event.consoleError line)

/-- The call `progressBar.start(total, startValue)`. -/
def progressBarStart {Num : Type} (env : Env Num) (total startValue : Nat) : Eff Num Unit :=
  fun w =>
    (Except.ok (),
      { w with
        progressBar := w.progressBar.start env.isTTY total startValue
        trace := w.trace ++ [Event.progressStart total startValue] })

/-- The call `progressBar.increment()`. -/
def progressBarIncrement {Num : Type} : Eff Num Unit :=
  fun w =>
    (Except.ok (),
      { w with
        progressBar := w.progressBar.increment
        trace := w.trace ++ [Event.progressIncrement] })

/-- The call `progressBar.stop()`. -/
def progressBarStop {Num : Type} : Eff Num Unit :=
  fun w =>
    (Except.ok (),
      { w with
        progressBar := w.progressBar.stop
        trace := w.trace ++ [Event.progressStop] })

/-- The call `PDFDocument.create()`: a new document without pages. -/
def PDFDocument.create {Num : Type} : Eff Num (PDFDocument Num) :=
  fun w =>
    (Except.ok { id := w.nextDoc, fontkit := false, fonts := [], pages := [] },
      { w with nextDoc := w.nextDoc + 1, trace := w.trace ++ [Event.create w.nextDoc] })

/-- The page object made from a parsed page: nothing has been drawn on it. -/
def PDFPage.ofParsed {Num : Type} (p : ParsedPage Num) : PDFPage Num :=
  { width := p.width, height := p.height, content := p.content, drawn := [] }

/-- The call `PDFDocument.load(bytes)`: a new document with the parsed pages. -/
def PDFDocument.load {Num : Type} (env : Env Num) (bytes : Bytes) : Eff Num (PDFDocument Num) :=
  fun w =>
    match env.loadFailure w.nextDoc bytes, env.load bytes with
    | some e, _ => (Except.error e, { w with trace := w.trace ++ [Event.load bytes] })
    | none, Except.error e => (Except.error e, { w with trace := w.trace ++ [Event.load bytes] })
    | none, Except.ok parsed =>
      (Except.ok
          { id := w.nextDoc, fontkit := false, fonts := [], pages := parsed.map PDFPage.ofParsed },
        { w with nextDoc := w.nextDoc + 1, trace := w.trace ++ [Event.load bytes] })

/-- The call `doc.registerFontkit(fontkit)`. -/
def PDFDocument.registerFontkit {Num : Type} (doc : PDFDocument Num) : PDFDocument Num :=
  { doc with fontkit := true }

/-- The call `doc.embedFont(fontBytes)`: the font handle and the document that now
holds it. -/
def PDFDocument.embedFont {Num : Type} (env : Env Num) (doc : PDFDocument Num)
    (fontBytes : Bytes) : Eff Num (PDFFont × PDFDocument Num) := do
  emit (Event.embedFont doc.id fontBytes)
  ofFailure (env.embedFont doc fontBytes)
  let font : PDFFont := { doc := doc.id, program := fontBytes }
  pure (font, { doc with fonts := doc.fonts ++ [font] })

/-- The call `doc.getPageCount()`. -/
def PDFDocument.getPageCount {Num : Type} (doc : PDFDocument Num) : Nat :=
  doc.pages.length

/-- The call `font.widthOfTextAtSize(text, size)`. -/
def PDFFont.widthOfTextAtSize {Num : Type} (env : Env Num) (font : PDFFont) (text : String)
    (size : Num) : Eff Num Num := do
  emit (Event.widthOfTextAtSize font text size)
  ofExcept (env.widthOfTextAtSize font text size)

/-- The call `page.drawText(text, options)` on page `j` of document `doc`: the page
with the draw added after what was drawn before. -/
def PDFPage.drawText {Num : Type} (env : Env Num) (doc j : Nat) (page : PDFPage Num)
    (text : String) (options : DrawTextOptions Num) : Eff Num (PDFPage Num) := do
  emit (Event.drawText doc j text options)
  ofFailure (env.drawText doc j page { text := text, options := options })
  pure { page with drawn := page.drawn ++ [{ text := text, options := options }] }

/-- The call `doc.save()`. -/
def PDFDocument.save {Num : Type} (env : Env Num) (doc : PDFDocument Num) : Eff Num Bytes := do
  emit (Event.save doc)
  ofExcept (env.save doc)

/-- The pages selected by `indices` in `copyPages`; reading a page that does not
exist (an index out of range or a hole in the index array) gives `none`. -/
def selectPages {Num : Type} (pages : List (PDFPage Num)) :
    List (Option Nat) → Option (List (PDFPage Num))
  | [] => some []
  | none :: _ => none
  | some k :: rest =>
    match pages[k]?, selectPages pages rest with
    | some p, some ps => some (p :: ps)
    | _, _ => none

/-- The call `dst.copyPages(src, indices)`: copies of the selected pages of `src`, in
the order of `indices`. -/
def PDFDocument.copyPages {Num : Type} (env : Env Num) (dst src : PDFDocument Num)
    (indices : List (Option Nat)) : Eff Num (List (PDFPage Num)) := do
  emit (Event.copyPages dst.id src.id indices)
  ofFailure (env.copyPages dst src indices)
  match selectPages src.pages indices with
  | none => throwJS typeError
  | some copied => pure copied

/-- The call `doc.addPage(page)`; with `undefined` pdf-lib appends a blank page. -/
def PDFDocument.addPage {Num : Type} (env : Env Num) (doc : PDFDocument Num)
    (page : Option (PDFPage Num)) : Eff Num (PDFDocument Num) := do
  emit (Event.addPage doc.id)
  ofFailure (env.addPage doc page)
  pure { doc with pages := doc.pages ++ [page.getD env.blankPage] }

/-! ## `index.js` -/

/-- The function `readInputFile`. -/
def readInputFile {Num : Type} (env : Env Num) (path : String) : Eff Num Bytes :=
  tryCatch
    (do
      emit (Event.readFileSync path)
      ofExcept (env.readFileSync path))
    (fun error =>
      throwJS
        { error with
          message :=
            "input.pdf 파일이 존재하지 않습니다. 파일을 준비하고 다시 본 프로그램을 실행해주세요."
          name := "InputFileUnavailableError" })

/-- The function `readNameListFile`. -/
def readNameListFile {Num : Type} (env : Env Num) (path : String) : Eff Num String :=
  tryCatch
    (do
      emit (Event.readFileSync path)
      ofExcept (env.readFileSyncUtf8 path))
    (fun error =>
      throwJS
        { error with
          message :=
            "name_list.txt 파일이 존재하지 않습니다. 파일을 준비하고 다시 본 프로그램을 실행해주세요."
          name := "NameListFileUnavailableError" })

/-- The function `readFontFile`. -/
def readFontFile {Num : Type} (env : Env Num) (path : String) : Eff Num Bytes :=
  tryCatch
    (do
      emit (Event.readFileSync path)
      ofExcept (env.readFileSync path))
    (fun error =>
      throwJS
        { error with
          message := "font 파일을 읽어오는데 문제가 발생했습니다."
          name := "FontFileUnavailableError" })

/-- The function `writeOutputFile`. -/
def writeOutputFile {Num : Type} (env : Env Num) (path : String) (data : Bytes) : Eff Num Unit :=
  tryCatch
    (do
      emit (Event.writeFileSync path data)
      ofFailure (env.writeFileSync path data))
    (fun error =>
      throwJS
        { error with
          message := "output.pdf 파일을 생성하는데 문제가 발생했습니다."
          name := "OutputFileWriteError" })

/-- The function `printAppInfo`. -/
def printAppInfo {Num : Type} : Eff Num Unit := do
  consoleLog "========================================="
  consoleLog "============== PDF Labeler =============="
  consoleLog "========================================="
  consoleLog "Version: 1.0.1"
  consoleLog "Updates: 긴 텍스트 문자 지원"
  consoleLog "-----------------------------------------"
  consoleLog ""

/-- The variables of `main` that the loop over the names assigns: the output document
`pdfDoc` and `indices`, which is `null` (`none`) or an array. -/
structure LoopState (Num : Type) where
  pdfDoc : PDFDocument Num
  indices : Option (List (Option Nat))
deriving DecidableEq

/-- The value of `new Array(n)`: an array of `n` holes. -/
def newArray (n : Nat) : List (Option Nat) :=
  List.replicate n none

/-- The loop `for (let k = 0; k < pageCount; k++) indices[k] = k`, at index `k` with
`remaining` rounds left. -/
def fillIndices : Nat → Nat → List (Option Nat) → List (Option Nat)
  | 0, _, indices => indices
  | remaining + 1, k, indices => fillIndices remaining (k + 1) (indices.set k (some k))

/-- The body of the loop over the pages of a working copy (lines 112 to 125): measure the
name and draw it on page `j`. -/
def labelPage {Num : Type} (env : Env Num) (font : PDFFont) (name : String) (j : Nat)
    (tempPdfDoc : PDFDocument Num) : Eff Num (PDFDocument Num) :=
  match tempPdfDoc.pages[j]? with
  | none => throwJS typeError
  | some currentPage => do
    let width := currentPage.width
    let height := currentPage.height
    let textSize := env.num.lit 12
    let textWidth ← font.widthOfTextAtSize env name textSize
    let drawnPage ← currentPage.drawText env tempPdfDoc.id j name
      { x := env.num.sub (env.num.sub width textWidth) (env.num.lit 16)
        y := env.num.sub height (env.num.mul textSize (env.num.lit 2))
        size := textSize
        font := font
        color := rgb (env.num.lit 0) (env.num.lit 0) (env.num.lit 0) }
    pure { tempPdfDoc with pages := tempPdfDoc.pages.set j drawnPage }

/-- The loop `for (let j = 0; j < pageCount; j++)` of lines 111 to 126, at index `j` with
`remaining` rounds left. -/
def forPages {Num : Type} (env : Env Num) (font : PDFFont) (name : String) :
    Nat → Nat → PDFDocument Num → Eff Num (PDFDocument Num)
  | 0, _, tempPdfDoc => pure tempPdfDoc
  | remaining + 1, j, tempPdfDoc => do
    let tempPdfDoc ← labelPage env font name j tempPdfDoc
    forPages env font name remaining (j + 1) tempPdfDoc

/-- The loop `for (let k = 0; k < pageCount; k++) pdfDoc.addPage(copiedPages[k])` of lines
139 to 141, at index `k` with `remaining` rounds left. -/
def addPages {Num : Type} (env : Env Num) (copiedPages : List (PDFPage Num)) :
    Nat → Nat → PDFDocument Num → Eff Num (PDFDocument Num)
  | 0, _, pdfDoc => pure pdfDoc
  | remaining + 1, k, pdfDoc => do
    let pdfDoc ← pdfDoc.addPage env copiedPages[k]?
    addPages env copiedPages remaining (k + 1) pdfDoc

/-- The body of the loop over the names (lines 100 to 142) for the name at index `i`.
The index is below `nameCount` whenever the loop runs the body; the default of `getD`
is never used. The test `!indices` holds for `null` only: an array, also an empty one, is
truthy. -/
def labelName {Num : Type} (env : Env Num) (existingPdfBytes customFont : Bytes)
    (nameList : List String) (i : Nat) (st : LoopState Num) : Eff Num (LoopState Num) := do
  let tempPdfDoc ← PDFDocument.load env existingPdfBytes
  let tempPdfDoc := tempPdfDoc.registerFontkit
  let (font, tempPdfDoc) ← tempPdfDoc.embedFont env customFont
  let name := nameList.getD i ""
  let pageCount := tempPdfDoc.getPageCount
  let tempPdfDoc ← forPages env font name pageCount 0 tempPdfDoc
  let _ ← tempPdfDoc.save env
  let indices :=
    match st.indices with
    | none => fillIndices pageCount 0 (newArray pageCount)
    | some indices => indices
  let copiedPages ← st.pdfDoc.copyPages env tempPdfDoc indices
  let pdfDoc ← addPages env copiedPages pageCount 0 st.pdfDoc
  progressBarIncrement
  pure { pdfDoc := pdfDoc, indices := some indices }

/-- The loop `for (let i = 0; i < nameCount; i++)` of lines 99 to 143, at index `i` with
`remaining` rounds left. -/
def forNames {Num : Type} (env : Env Num) (existingPdfBytes customFont : Bytes)
    (nameList : List String) : Nat → Nat → LoopState Num → Eff Num (LoopState Num)
  | 0, _, st => pure st
  | remaining + 1, i, st => do
    let st ← labelName env existingPdfBytes customFont nameList i st
    forNames env existingPdfBytes customFont nameList remaining (i + 1) st

/-- The constant `isProductionEnv` of `main`. -/
def isProductionEnv {Num : Type} (env : Env Num) : Bool :=
  env.nodeEnv != some "development"

/-- The constant `inputFilePath` of `main`. -/
def inputFilePath {Num : Type} (env : Env Num) : String :=
  if isProductionEnv env then env.pathJoin env.execPath "../input.pdf" else "./input.pdf"

/-- The constant `nameListFilePath` of `main`. -/
def nameListFilePath {Num : Type} (env : Env Num) : String :=
  if isProductionEnv env then env.pathJoin env.execPath "../name_list.txt"
  else "./name_list.txt"

/-- The constant `fontFilePath` of `main`. -/
def fontFilePath {Num : Type} (env : Env Num) : String :=
  if isProductionEnv env then env.pathJoin env.dirname "font" ++ "/NanumGothicCoding.ttf"
  else "./font/NanumGothicCoding.ttf"

/-- The constant `outputFilePath` of `main`. -/
def outputFilePath {Num : Type} (env : Env Num) : String :=
  if isProductionEnv env then env.pathJoin env.execPath "../output.pdf" else "./output.pdf"

/-- Lines 73 to 143 of `main`: from the start of the `try` block to the end of the loop over
the names. The value is the state of the loop variables, `pdfDoc` among them. -/
def labelAll {Num : Type} (env : Env Num) : Eff Num (LoopState Num) := do
  printAppInfo
  let existingPdfBytes ← readInputFile env (inputFilePath env)
  let nameListFile ← readNameListFile env (nameListFilePath env)
  let customFont ← readFontFile env (fontFilePath env)
  let nameList := split nameListFile newline
  let nameCount := nameList.length
  let pdfDoc ← PDFDocument.create
  progressBarStart env nameCount 0
  forNames env existingPdfBytes customFont nameList nameCount 0
    { pdfDoc := pdfDoc, indices := none }

/-- Lines 73 to 145 of `main`: everything up to and including `pdfDoc.save()`, which
yields `pdfBytes`. -/
def buildOutput {Num : Type} (env : Env Num) : Eff Num Bytes := do
  let st ← labelAll env
  st.pdfDoc.save env

/-- The `try` block of `main` (lines 73 to 157). -/
def mainTry {Num : Type} (env : Env Num) : Eff Num Unit := do
  let pdfBytes ← buildOutput env
  progressBarStop
  consoleLog ""
  consoleLog ">> 라벨링된 파일 생성중"
  writeOutputFile env (outputFilePath env) pdfBytes
  consoleLog ">> 파일 생성 완료"
  consoleLog ""
  consoleLog "\"x\" 버튼으로 종료해주세요"

/-- The function `main`: the `try` block and the `catch` block that prints the name and
the message of the error. -/
def main {Num : Type} (env : Env Num) : Eff Num Unit :=
  tryCatch (mainTry env) (fun error => do
    consoleError error.name
    consoleError error.message)

/-! ## JavaScript numbers -/

/-- A JavaScript number, an IEEE-754 binary64 value: a finite value (a rational that
rounding leaves unchanged; the two zeros are one value), an infinity or a NaN. -/
inductive Double where
  | finite (value : ℚ)
  | infinity (negative : Bool)
  | nan
deriving DecidableEq

/-- The power `2 ^ e` for an integer exponent. -/
def pow2 (e : Int) : ℚ :=
  if 0 ≤ e then ((2 ^ e.toNat : Nat) : ℚ) else 1 / ((2 ^ (-e).toNat : Nat) : ℚ)

/-- Halving `n` until it is below 2, at most `fuel` times, and counting the steps. -/
def log2Steps : Nat → Nat → Nat
  | 0, _ => 0
  | fuel + 1, n => if 2 ≤ n then log2Steps fuel (n / 2) + 1 else 0

/-- The position of the leading binary digit of `n`: the greatest `k` with `2 ^ k ≤ n`, for
`n` other than zero. -/
def log2 (n : Nat) : Nat :=
  log2Steps n n

/-- The binary exponent of a rational other than zero: the greatest `e` with `2 ^ e ≤ |q|`. -/
def exponent (q : ℚ) : Int :=
  if pow2 ((log2 q.num.natAbs : Int) - (log2 q.den : Int)) ≤ |q| then
    (log2 q.num.natAbs : Int) - (log2 q.den : Int)
  else (log2 q.num.natAbs : Int) - (log2 q.den : Int) - 1

/-- Rounding to the nearest integer, ties to the even one. -/
def roundHalfEven (t : ℚ) : Int :=
  if t - ⌊t⌋ < 1 / 2 then ⌊t⌋
  else if 1 / 2 < t - ⌊t⌋ then ⌊t⌋ + 1
  else if ⌊t⌋ % 2 = 0 then ⌊t⌋ else ⌊t⌋ + 1

/-- The spacing of the binary64 values around `q`. -/
def ulp (q : ℚ) : ℚ :=
  pow2 (max (exponent q) (-1022) - 52)

/-- Rounding of an exact result to binary64: to the nearest value, ties to the even
significand, with 53 significant bits, spacing `2 ^ -1074` at the bottom of the range and
infinity from `2 ^ 1024` on. -/
def Double.round (q : ℚ) : Double :=
  if pow2 1024 ≤ |(roundHalfEven (q / ulp q) : ℚ) * ulp q| then Double.infinity (decide (q < 0))
  else Double.finite ((roundHalfEven (q / ulp q) : ℚ) * ulp q)

/-- JavaScript `a - b`. -/
def Double.sub : Double → Double → Double
  | Double.finite a, Double.finite b => Double.round (a - b)
  | Double.finite _, Double.infinity s => Double.infinity (!s)
  | Double.infinity s, Double.finite _ => Double.infinity s
  | Double.infinity s, Double.infinity t => if s = t then Double.nan else Double.infinity s
  | _, _ => Double.nan

/-- JavaScript `a + b`. -/
def Double.add : Double → Double → Double
  | Double.finite a, Double.finite b => Double.round (a + b)
  | Double.finite _, Double.infinity s => Double.infinity s
  | Double.infinity s, Double.finite _ => Double.infinity s
  | Double.infinity s, Double.infinity t => if s = t then Double.infinity s else Double.nan
  | _, _ => Double.nan

/-- JavaScript `a <= b`. -/
def Double.le : Double → Double → Bool
  | Double.finite a, Double.finite b => decide (a ≤ b)
  | Double.finite _, Double.infinity s => !s
  | Double.infinity s, Double.finite _ => s
  | Double.infinity s, Double.infinity t => s || !t
  | _, _ => false

/-- JavaScript `a < b`. -/
def Double.lt : Double → Double → Bool
  | Double.finite a, Double.finite b => decide (a < b)
  | Double.finite _, Double.infinity s => !s
  | Double.infinity s, Double.finite _ => s
  | Double.infinity s, Double.infinity t => s && !t
  | _, _ => false

/-- JavaScript `a * b`. -/
def Double.mul : Double → Double → Double
  | Double.finite a, Double.finite b => Double.round (a * b)
  | Double.finite a, Double.infinity s =>
    if a = 0 then Double.nan else Double.infinity (xor s (decide (a < 0)))
  | Double.infinity s, Double.finite b =>
    if b = 0 then Double.nan else Double.infinity (xor s (decide (b < 0)))
  | Double.infinity s, Double.infinity t => Double.infinity (xor s t)
  | _, _ => Double.nan

/-- The arithmetic of `main` on JavaScript numbers. -/
def doubleOps : NumOps Double :=
  { lit := fun n => Double.round n, sub := Double.sub, mul := Double.mul }

/-! ## Notions used in the statements and proofs -/

/-- The index array `[0, 1, ..., n - 1]`. -/
def indexArray (n : Nat) : List (Option Nat) :=
  (List.range n).map some

/-- The text draw that `labelPage` passes to `drawText` for a page of the given size when
the name measures `textWidth`. -/
def labelDraw {Num : Type} (env : Env Num) (font : PDFFont) (name : String)
    (width height textWidth : Num) : TextDraw Num :=
  { text := name
    options :=
      { x := env.num.sub (env.num.sub width textWidth) (env.num.lit 16)
        y := env.num.sub height (env.num.mul (env.num.lit 12) (env.num.lit 2))
        size := env.num.lit 12
        font := font
        color := rgb (env.num.lit 0) (env.num.lit 0) (env.num.lit 0) } }

/-- A page after `labelPage` has drawn on it. -/
def stamp {Num : Type} (env : Env Num) (font : PDFFont) (name : String) (textWidth : Num)
    (p : PDFPage Num) : PDFPage Num :=
  { p with drawn := p.drawn ++ [labelDraw env font name p.width p.height textWidth] }

/-- The `drawText` calls in a trace, in order: document, page index, text and options. -/
def drawCalls {Num : Type} (trace : List (Event Num)) :
    List (Nat × Nat × String × DrawTextOptions Num) :=
  trace.filterMap fun ev =>
    match ev with
    | Event.drawText doc page text options => some (doc, page, text, options)
    | _ => none

/-- The events of the loop over the pages: measuring and drawing. -/
def isPageEvent {Num : Type} : Event Num → Prop
  | Event.widthOfTextAtSize _ _ _ => True
  | Event.drawText _ _ _ _ => True
  | _ => False

/-- The lines printed by `printAppInfo`. -/
def appInfoLines {Num : Type} : List (Event Num) :=
  [Event.consoleLog "=========================================",
   Event.consoleLog "============== PDF Labeler ==============",
   Event.consoleLog "=========================================",
   Event.consoleLog "Version: 1.0.1",
   Event.consoleLog "Updates: 긴 텍스트 문자 지원",
   Event.consoleLog "-----------------------------------------",
   Event.consoleLog ""]

/-- The world in which the loop over the names starts, when the three files have been
read and the name list has `nameCount` entries. -/
def loopStart {Num : Type} (env : Env Num) (nameCount : Nat) (w : World Num) : World Num :=
  { nextDoc := w.nextDoc + 1
    progressBar := w.progressBar.start env.isTTY nameCount 0
    trace := w.trace ++ appInfoLines ++
      [Event.readFileSync (inputFilePath env), Event.readFileSync (nameListFilePath env),
       Event.readFileSync (fontFilePath env), Event.create w.nextDoc,
       Event.progressStart nameCount 0] }

/-- Running `x` in `w` only appends events that satisfy `P` to the trace. -/
def Emits {Num α : Type} (P : Event Num → Prop) (x : Eff Num α) (w : World Num) : Prop :=
  ∃ evs, (x w).2.trace = w.trace ++ evs ∧ ∀ ev ∈ evs, P ev

/-- The events of the loop over the names: the calls of one round, with the template
bytes that are loaded and the index array that is passed to `copyPages`. -/
def isLoopEvent {Num : Type} (bytes : Bytes) (indices : List (Option Nat)) : Event Num → Prop
  | Event.load b => b = bytes
  | Event.copyPages _ _ ix => ix = indices
  | Event.embedFont _ _ => True
  | Event.widthOfTextAtSize _ _ _ => True
  | Event.drawText _ _ _ _ => True
  | Event.save _ => True
  | Event.addPage _ => True
  | Event.progressIncrement => True
  | _ => False

/-- The events of lines 73 to 145: those of the loop, and console output, file reads, the
creation of the output document and the start of the progress bar. -/
def isBuildEvent {Num : Type} (bytes : Bytes) (indices : List (Option Nat)) : Event Num → Prop
  | Event.consoleLog _ => True
  | Event.readFileSync _ => True
  | Event.create _ => True
  | Event.progressStart _ _ => True
  | ev => isLoopEvent bytes indices ev

/-- The events of `main`: those of lines 73 to 145, and what follows them. -/
def isMainEvent {Num : Type} (bytes : Bytes) (indices : List (Option Nat)) : Event Num → Prop
  | Event.progressStop => True
  | Event.writeFileSync _ _ => True
  | Event.consoleError _ => True
  | ev => isBuildEvent bytes indices ev

/-- The index array for the template that `bytes` parses to. -/
def templateIndices {Num : Type} (env : Env Num) (bytes : Bytes) : List (Option Nat) :=
  match env.load bytes with
  | Except.ok parsed => indexArray parsed.length
  | Except.error _ => []

/-- The bytes of the template file, or no bytes when it cannot be read. -/
def templateBytes {Num : Type} (env : Env Num) : Bytes :=
  match env.readFileSync (inputFilePath env) with
  | Except.ok bytes => bytes
  | Except.error _ => []

/-- Whether an event is a call of `progressBar.increment()`. -/
def isIncrement {Num : Type} : Event Num → Bool
  | Event.progressIncrement => true
  | _ => false

/-- The number of calls of `progressBar.increment()` in a trace. -/
def increments {Num : Type} (trace : List (Event Num)) : Nat :=
  (trace.filter isIncrement).length

/-- The size of a page, as `getSize` returns it. -/
def pageSize {Num : Type} (p : PDFPage Num) : Num × Num :=
  (p.width, p.height)

/-- An event is not a `drawText` call or it is the call that labels a page of document
`doc`, whose pages have the sizes `sizes`, with `name` in the font `font`. -/
def isLabelDraw {Num : Type} (env : Env Num) (font : PDFFont) (name : String) (doc : Nat)
    (sizes : List (Num × Num)) : Event Num → Prop
  | Event.drawText d j text options =>
    d = doc ∧ text = name ∧ ∃ size textWidth, sizes[j]? = some size ∧
      env.widthOfTextAtSize font name (env.num.lit 12) = Except.ok textWidth ∧
      options = (labelDraw env font name size.1 size.2 textWidth).options
  | _ => True

/-- The exact value to which `q` is rounded when the result is in range. -/
def roundedValue (q : ℚ) : ℚ :=
  (roundHalfEven (q / ulp q) : ℚ) * ulp q

/-- The `x` of the last text drawn on page `j` after `labelPage` has run on it, if it
returns. -/
def labelX {Num : Type} (env : Env Num) (font : PDFFont) (name : String) (j : Nat)
    (doc : PDFDocument Num) (w : World Num) : Option Num :=
  match labelPage env font name j doc w with
  | (Except.ok doc', _) =>
    match doc'.pages[j]? with
    | some page => page.drawn.getLast?.map fun draw => draw.options.x
    | none => none
  | (Except.error _, _) => none

/-! ## Sample runs -/

/-- Exact integer arithmetic, used as the number system of the sample runs. -/
def intOps : NumOps Int :=
  { lit := fun n => (n : Int), sub := fun a b => a - b, mul := fun a b => a * b }

/-- A template of two pages. -/
def sampleTemplate : List (ParsedPage Int) :=
  [{ width := 600, height := 800, content := [1] }, { width := 300, height := 400, content := [2] }]

/-- The text of the sample name list: `Alice`, a newline, `Bob`. -/
def sampleNames : String :=
  "Alice" ++ String.singleton newline ++ "Bob"

/-- A sample environment in which no call fails: the name list is `sampleNames`, the
template is `sampleTemplate` and every character is 6 units wide at size 12. -/
def sampleEnv : Env Int :=
  { num := intOps
    nodeEnv := some "development"
    execPath := "/app/labeler"
    dirname := "/snapshot"
    isTTY := true
    pathJoin := fun a b => a ++ "/" ++ b
    readFileSync := fun path =>
      Except.ok (if path = "./input.pdf" then [37, 80, 68, 70] else [0, 1])
    readFileSyncUtf8 := fun _ => Except.ok sampleNames
    writeFileSync := fun _ _ => none
    load := fun _ => Except.ok sampleTemplate
    loadFailure := fun _ _ => none
    embedFont := fun _ _ => none
    widthOfTextAtSize := fun _ text _ => Except.ok (6 * (text.length : Int))
    drawText := fun _ _ _ _ => none
    save := fun doc => Except.ok [doc.pages.length]
    copyPages := fun _ _ _ => none
    addPage := fun _ _ => none
    blankPage := { width := 0, height := 0, content := [], drawn := [] } }

/-- The world before `main` runs: no document has been made, the progress bar has been
created, nothing has been called. -/
def initialWorld (Num : Type) : World Num :=
  { nextDoc := 0, progressBar := ProgressBar.created, trace := [] }

/-- The page that the sample run makes of a template page: one label, drawn with the font
of working copy `doc`. -/
def sampleStamped (doc : Nat) (name : String) (x y : Int) (p : ParsedPage Int) : PDFPage Int :=
  { width := p.width
    height := p.height
    content := p.content
    drawn :=
      [{ text := name
         options :=
           { x := x, y := y, size := 12, font := { doc := doc, program := [0, 1] },
             color := { red := 0, green := 0, blue := 0 } } }] }

/-- The loop variables at the end of the sample run. -/
def sampleState : LoopState Int :=
  { pdfDoc :=
      { id := 0
        fontkit := false
        fonts := []
        pages :=
          [sampleStamped 1 "Alice" 554 776 { width := 600, height := 800, content := [1] },
           sampleStamped 1 "Alice" 254 376 { width := 300, height := 400, content := [2] },
           sampleStamped 2 "Bob" 566 776 { width := 600, height := 800, content := [1] },
           sampleStamped 2 "Bob" 266 376 { width := 300, height := 400, content := [2] }] }
    indices := some [some 0, some 1] }

/-- The world at the end of the loop of the sample run. -/
def sampleWorld : World Int :=
  (labelAll sampleEnv (initialWorld Int)).2

/-- The world in which the sample round starts. -/
def sampleRoundStart : World Int :=
  { nextDoc := 1, progressBar := { total := 2, value := 0, isActive := true }, trace := [] }

/-- The loop variables before the sample round: an empty output document, no index array. -/
def sampleRoundState : LoopState Int :=
  { pdfDoc := { id := 0, fontkit := false, fonts := [], pages := [] }, indices := none }

/-- The loop variables after the sample round, which labels the template for `Bob`. -/
def sampleRoundResult : LoopState Int :=
  { pdfDoc :=
      { id := 0
        fontkit := false
        fonts := []
        pages :=
          [sampleStamped 1 "Bob" 566 776 { width := 600, height := 800, content := [1] },
           sampleStamped 1 "Bob" 266 376 { width := 300, height := 400, content := [2] }] }
    indices := some [some 0, some 1] }

/-- The world after the sample round. -/
def sampleRoundEnd : World Int :=
  (labelName sampleEnv [37, 80, 68, 70] [0, 1] ["Alice", "Bob"] 1 sampleRoundState
    sampleRoundStart).2

/-- The error with which page copying fails in the failing sample run. -/
def mergeError : JSError :=
  { name := "MergeError", message := "cannot copy the pages" }

/-- The sample environment, except that `copyPages` fails for the working copy of the second
name (document 2). -/
def failingEnv : Env Int :=
  { sampleEnv with
    copyPages := fun _ src _ => if src.id = 2 then some mergeError else none }

/-- The world in which `buildOutput` fails in the failing sample run. -/
def failingWorld : World Int :=
  (buildOutput failingEnv (initialWorld Int)).2

/-- The world before the failing round of the failing sample run: the first name has been
labelled. -/
def failingRoundStart : World Int :=
  (forNames failingEnv [37, 80, 68, 70] [0, 1] (split sampleNames newline) 1 0
    { pdfDoc := { id := 0, fontkit := false, fonts := [], pages := [] }, indices := none }
    (loopStart failingEnv 2 (initialWorld Int))).2

/-- The loop variables before the failing round of the failing sample run. -/
def failingRoundState : LoopState Int :=
  { pdfDoc :=
      { id := 0
        fontkit := false
        fonts := []
        pages :=
          [sampleStamped 1 "Alice" 554 776 { width := 600, height := 800, content := [1] },
           sampleStamped 1 "Alice" 254 376 { width := 300, height := 400, content := [2] }] }
    indices := some [some 0, some 1] }

/-- The sample environment with the name list `Alice`, an empty line, `Bob` and a final
newline: four entries, two of them empty. -/
def emptyEntryEnv : Env Int :=
  { sampleEnv with
    readFileSyncUtf8 := fun _ =>
      Except.ok ("Alice" ++ String.singleton newline ++ String.singleton newline ++ "Bob" ++
        String.singleton newline) }

/-- The sample environment with a progress bar whose stream is not a terminal, as when the
output of the program is piped. -/
def pipedEnv : Env Int :=
  { sampleEnv with isTTY := false }

/-- The world at the end of the loop of the sample run with a piped progress bar. -/
def pipedWorld : World Int :=
  (labelAll pipedEnv (initialWorld Int)).2

/-- The number `841.89`, the long side of an A4 page. -/
def a4Long : Double :=
  Double.round (84189 / 100)

/-- The number `86.892`, a label width. -/
def wideLabel : Double :=
  Double.round (86892 / 1000)

/-- The number `1e-20`, a label width. -/
def thinLabel : Double :=
  Double.round (1 / 10 ^ 20)

/-- A template with a page `841.89` wide and a page `16` wide. -/
def doubleTemplate : List (ParsedPage Double) :=
  [{ width := a4Long, height := Double.round (59528 / 100), content := [1] },
   { width := Double.round 16, height := Double.round 24, content := [2] }]

/-- A sample environment over JavaScript numbers in which no call fails: the text `Alice`
is `86.892` wide and every other text `1e-20`. -/
def doubleEnv : Env Double :=
  { num := doubleOps
    nodeEnv := some "development"
    execPath := "/app/labeler"
    dirname := "/snapshot"
    isTTY := true
    pathJoin := fun a b => a ++ "/" ++ b
    readFileSync := fun path =>
      Except.ok (if path = "./input.pdf" then [37, 80, 68, 70] else [0, 1])
    readFileSyncUtf8 := fun _ => Except.ok sampleNames
    writeFileSync := fun _ _ => none
    load := fun _ => Except.ok doubleTemplate
    loadFailure := fun _ _ => none
    embedFont := fun _ _ => none
    widthOfTextAtSize := fun _ text _ =>
      Except.ok (if text = "Alice" then wideLabel else thinLabel)
    drawText := fun _ _ _ _ => none
    save := fun doc => Except.ok [doc.pages.length]
    copyPages := fun _ _ _ => none
    addPage := fun _ _ => none
    blankPage :=
      { width := Double.finite 0, height := Double.finite 0, content := [], drawn := [] } }

/-- The font of the sample working copy over JavaScript numbers. -/
def doubleFont : PDFFont :=
  { doc := 1, program := [0, 1] }

/-- A working copy of `doubleTemplate` on which nothing has been drawn. -/
def doubleDoc : PDFDocument Double :=
  { id := 1, fontkit := true, fonts := [doubleFont],
    pages := doubleTemplate.map PDFPage.ofParsed }

/-- The working copy `doubleDoc` after `labelPage` has drawn `Alice` on its first page. -/
def doubleDocLabelled : PDFDocument Double :=
  { id := 1
    fontkit := true
    fonts := [doubleFont]
    pages :=
      [{ width := a4Long
         height := Double.round (59528 / 100)
         content := [1]
         drawn :=
           [{ text := "Alice"
              options :=
                { x := Double.sub (Double.sub a4Long wideLabel) (Double.round 16)
                  y := Double.sub (Double.round (59528 / 100))
                    (Double.mul (Double.round 12) (Double.round 2))
                  size := Double.round 12
                  font := doubleFont
                  color := rgb (Double.round 0) (Double.round 0) (Double.round 0) } }] },
       { width := Double.round 16, height := Double.round 24, content := [2], drawn := [] }] }

/-! ## Reasoning about `Eff` -/

theorem bind_apply {Num α β : Type} (x : Eff Num α) (f : α → Eff Num β) (w : World Num) :
    (x >>= f) w = Eff.bind x f w := rfl

theorem pure_apply {Num α : Type} (a : α) (w : World Num) :
    (pure a : Eff Num α) w = (Except.ok a, w) := rfl

theorem bind_eq_ok {Num α β : Type} {x : Eff Num α} {f : α → Eff Num β} {w w' : World Num}
    {b : β} :
    (x >>= f) w = (Except.ok b, w') ↔
      ∃ a w1, x w = (Except.ok a, w1) ∧ f a w1 = (Except.ok b, w') := by
  rw [bind_apply]
  unfold Eff.bind
  rcases hx : x w with ⟨r, w1⟩
  cases r with
  | ok a =>
    constructor
    · intro h
      exact ⟨a, w1, by simp, h⟩
    · rintro ⟨a1, w2, h1, h2⟩
      simp only [Prod.mk.injEq, Except.ok.injEq] at h1
      obtain ⟨rfl, rfl⟩ := h1
      exact h2
  | error e => simp

theorem bind_eq_error {Num α β : Type} {x : Eff Num α} {f : α → Eff Num β} {w w' : World Num}
    {e : JSError} :
    (x >>= f) w = (Except.error e, w') ↔
      x w = (Except.error e, w') ∨
        ∃ a w1, x w = (Except.ok a, w1) ∧ f a w1 = (Except.error e, w') := by
  rw [bind_apply]
  unfold Eff.bind
  rcases hx : x w with ⟨r, w1⟩
  cases r with
  | ok a =>
    constructor
    · intro h
      exact Or.inr ⟨a, w1, by simp, h⟩
    · rintro (h | ⟨a1, w2, h1, h2⟩)
      · simp at h
      · simp only [Prod.mk.injEq, Except.ok.injEq] at h1
        obtain ⟨rfl, rfl⟩ := h1
        exact h2
  | error e1 => simp

theorem bind_of_ok {Num α β : Type} {x : Eff Num α} (f : α → Eff Num β) {w w1 : World Num}
    {a : α} (h : x w = (Except.ok a, w1)) : (x >>= f) w = f a w1 := by
  rw [bind_apply]
  unfold Eff.bind
  rw [h]

theorem bind_of_error {Num α β : Type} {x : Eff Num α} (f : α → Eff Num β) {w w1 : World Num}
    {e : JSError} (h : x w = (Except.error e, w1)) : (x >>= f) w = (Except.error e, w1) := by
  rw [bind_apply]
  unfold Eff.bind
  rw [h]

/-! ## Facts about the pure parts -/

theorem splitLoop_length (sep : Char) :
    ∀ (cs cur : List Char), (splitLoop sep cur cs).length = cs.count sep + 1 := by
  intro cs
  induction cs with
  | nil => intro cur; simp [splitLoop]
  | cons c cs ih =>
    intro cur
    by_cases h : c = sep
    · simp [splitLoop, h, ih]
    · have h2 : ¬ (c == sep) = true := by simpa using h
      simp [splitLoop, h, ih, List.count_cons, h2]

theorem split_length (s : String) (sep : Char) :
    (split s sep).length = s.data.count sep + 1 := by
  simp [split, splitLoop_length]

theorem fillIndices_append :
    ∀ (remaining k : Nat) (pre : List (Option Nat)), pre.length = k →
      fillIndices remaining k (pre ++ List.replicate remaining none) =
        pre ++ (List.range' k remaining).map some := by
  intro remaining
  induction remaining with
  | zero => intro k pre _; simp [fillIndices]
  | succ r ih =>
    intro k pre hk
    have hset : (pre ++ List.replicate (r + 1) none).set k (some k) =
        (pre ++ [some k]) ++ List.replicate r (none : Option Nat) := by
      subst hk
      simp [List.replicate_succ, List.set_append]
    rw [fillIndices, hset, ih (k + 1) (pre ++ [some k]) (by simp [hk])]
    simp [List.range'_succ]

theorem fillIndices_newArray (n : Nat) : fillIndices n 0 (newArray n) = indexArray n := by
  have h := fillIndices_append n 0 [] rfl
  simpa [newArray, indexArray, List.range_eq_range'] using h

theorem selectPages_range' {Num : Type} (pages : List (PDFPage Num)) :
    ∀ (n a : Nat), a + n ≤ pages.length →
      selectPages pages ((List.range' a n).map some) = some ((pages.drop a).take n) := by
  intro n
  induction n with
  | zero => intro a _; simp [selectPages]
  | succ n ih =>
    intro a ha
    have hlt : a < pages.length := by omega
    have hdrop : pages.drop a = pages[a] :: pages.drop (a + 1) := by
      rw [List.drop_eq_getElem_cons hlt]
    simp only [List.range'_succ, List.map_cons, selectPages, ih (a + 1) (by omega),
      List.getElem?_eq_getElem hlt, hdrop, List.take_succ_cons]

theorem selectPages_indexArray {Num : Type} (pages : List (PDFPage Num)) :
    selectPages pages (indexArray pages.length) = some pages := by
  have h := selectPages_range' pages pages.length 0 (by omega)
  simpa [indexArray, List.range_eq_range'] using h

/-! ## What the calls do when they return -/

theorem emit_apply {Num : Type} (ev : Event Num) (w : World Num) :
    emit ev w = (Except.ok (), { w with trace := w.trace ++ [ev] }) := rfl

theorem ofExcept_apply {Num α : Type} (r : Except JSError α) (w : World Num) :
    ofExcept r w = (r, w) := rfl

theorem ofFailure_eq_ok {Num : Type} {r : Option JSError} {w w' : World Num} {u : Unit} :
    ofFailure r w = (Except.ok u, w') ↔ r = none ∧ w' = w := by
  unfold ofFailure
  cases r <;> simp [eq_comm]

theorem ofFailure_none {Num : Type} (w : World Num) :
    ofFailure none w = (Except.ok (), w) := rfl

theorem throwJS_apply {Num α : Type} (e : JSError) (w : World Num) :
    (throwJS e : Eff Num α) w = (Except.error e, w) := rfl

theorem tryCatch_eq_ok {Num α : Type} {body : Eff Num α} {e' : JSError → JSError}
    {w w' : World Num} {a : α} :
    tryCatch body (fun error => throwJS (e' error)) w = (Except.ok a, w') ↔
      body w = (Except.ok a, w') := by
  unfold tryCatch
  rcases hb : body w with ⟨r, w1⟩
  cases r <;> simp [throwJS_apply]

theorem drawCalls_append {Num : Type} (a b : List (Event Num)) :
    drawCalls (a ++ b) = drawCalls a ++ drawCalls b := by
  simp [drawCalls, List.filterMap_append]

theorem labelPage_ok {Num : Type} {env : Env Num} {font : PDFFont} {name : String} {j : Nat}
    {doc doc' : PDFDocument Num} {w w' : World Num}
    (h : labelPage env font name j doc w = (Except.ok doc', w')) :
    ∃ p tw, doc.pages[j]? = some p ∧
      env.widthOfTextAtSize font name (env.num.lit 12) = Except.ok tw ∧
      doc' = { doc with pages := doc.pages.set j (stamp env font name tw p) } ∧
      w' = { w with trace := w.trace ++
        [Event.widthOfTextAtSize font name (env.num.lit 12),
         Event.drawText doc.id j name (labelDraw env font name p.width p.height tw).options] } := by
  unfold labelPage at h
  cases hp : doc.pages[j]? with
  | none => simp [hp, throwJS_apply] at h
  | some p =>
    simp only [hp, PDFFont.widthOfTextAtSize, PDFPage.drawText, bind_eq_ok, emit_apply,
      ofExcept_apply, ofFailure_eq_ok, pure_apply, Prod.mk.injEq, Except.ok.injEq] at h
    obtain ⟨tw, w1, ⟨_, _, ⟨-, rfl⟩, htw, rfl⟩, _, _, ⟨_, _, ⟨-, rfl⟩, _, _, ⟨-, rfl⟩, rfl, rfl⟩,
      rfl, rfl⟩ := h
    exact ⟨p, tw, rfl, htw, rfl, by simp [labelDraw]⟩

theorem forPages_ok {Num : Type} {env : Env Num} {font : PDFFont} {name : String} :
    ∀ (remaining j : Nat) (doc doc' : PDFDocument Num) (w w' : World Num),
      forPages env font name remaining j doc w = (Except.ok doc', w') →
      doc'.id = doc.id ∧ doc'.fontkit = doc.fontkit ∧ doc'.fonts = doc.fonts ∧
      doc'.pages.length = doc.pages.length ∧
      w'.nextDoc = w.nextDoc ∧ w'.progressBar = w.progressBar ∧
      (∀ k, k < j → doc'.pages[k]? = doc.pages[k]?) ∧
      (∀ k, j + remaining ≤ k → doc'.pages[k]? = doc.pages[k]?) ∧
      (∀ k, j ≤ k → k < j + remaining → ∃ p tw, doc.pages[k]? = some p ∧
        env.widthOfTextAtSize font name (env.num.lit 12) = Except.ok tw ∧
        doc'.pages[k]? = some (stamp env font name tw p)) := by
  intro remaining
  induction remaining with
  | zero =>
    intro j doc doc' w w' h
    simp only [forPages, pure_apply, Prod.mk.injEq, Except.ok.injEq] at h
    obtain ⟨rfl, rfl⟩ := h
    refine ⟨rfl, rfl, rfl, rfl, rfl, rfl, fun _ _ => rfl, fun _ _ => rfl, ?_⟩
    intro k h1 h2
    omega
  | succ r ih =>
    intro j doc doc' w w' h
    simp only [forPages, bind_eq_ok] at h
    obtain ⟨doc1, w1, h1, h2⟩ := h
    obtain ⟨p, tw, hp, htw, rfl, rfl⟩ := labelPage_ok h1
    obtain ⟨e1, e2, e3, e4, e5, e6, e7, e8, e9⟩ := ih _ _ _ _ _ h2
    have hj : j < doc.pages.length := by
      rcases Nat.lt_or_ge j doc.pages.length with hlt | hge
      · exact hlt
      · rw [List.getElem?_eq_none hge] at hp
        cases hp
    refine ⟨e1, e2, e3, by simpa using e4, e5, e6, ?_, ?_, ?_⟩
    · intro k hk
      rw [e7 k (by omega)]
      simp only [List.getElem?_set]
      rw [if_neg (by omega)]
    · intro k hk
      rw [e8 k (by omega)]
      simp only [List.getElem?_set]
      rw [if_neg (by omega)]
    · intro k hk1 hk2
      rcases Nat.eq_or_lt_of_le hk1 with heq | hlt
      · subst heq
        refine ⟨p, tw, hp, htw, ?_⟩
        rw [e7 j (by omega)]
        simp [List.getElem?_set, hj]
      · obtain ⟨q, tw2, hq, htw2, hq2⟩ := e9 k (by omega) (by omega)
        simp only [List.getElem?_set] at hq
        rw [if_neg (by omega)] at hq
        exact ⟨q, tw2, hq, htw2, hq2⟩

theorem forPages_trace {Num : Type} {env : Env Num} {font : PDFFont} {name : String} :
    ∀ (remaining j : Nat) (doc doc' : PDFDocument Num) (w w' : World Num),
      forPages env font name remaining j doc w = (Except.ok doc', w') →
      ∃ evs, w'.trace = w.trace ++ evs ∧ (∀ ev ∈ evs, isPageEvent ev) ∧
        (drawCalls evs).length = remaining ∧
        ∀ a, a < remaining → ∃ p tw, doc.pages[j + a]? = some p ∧
          env.widthOfTextAtSize font name (env.num.lit 12) = Except.ok tw ∧
          (drawCalls evs)[a]? =
            some (doc.id, j + a, name, (labelDraw env font name p.width p.height tw).options) := by
  intro remaining
  induction remaining with
  | zero =>
    intro j doc doc' w w' h
    simp only [forPages, pure_apply, Prod.mk.injEq, Except.ok.injEq] at h
    obtain ⟨rfl, rfl⟩ := h
    exact ⟨[], by simp, by simp, by simp [drawCalls], by intro a ha; omega⟩
  | succ r ih =>
    intro j doc doc' w w' h
    simp only [forPages, bind_eq_ok] at h
    obtain ⟨doc1, w1, h1, h2⟩ := h
    obtain ⟨p, tw, hp, htw, rfl, rfl⟩ := labelPage_ok h1
    obtain ⟨evs, e1, e2, e3, e4⟩ := ih _ _ _ _ _ h2
    refine ⟨[Event.widthOfTextAtSize font name (env.num.lit 12),
      Event.drawText doc.id j name (labelDraw env font name p.width p.height tw).options] ++ evs,
      by simp [e1], ?_, ?_, ?_⟩
    · intro ev hev
      simp only [List.cons_append, List.nil_append, List.mem_cons] at hev
      rcases hev with rfl | rfl | hev
      · exact True.intro
      · exact True.intro
      · exact e2 ev hev
    · rw [drawCalls_append, List.length_append, e3]
      simp [drawCalls]
      omega
    · intro a ha
      rw [drawCalls_append]
      cases a with
      | zero => exact ⟨p, tw, hp, htw, by simp [drawCalls]⟩
      | succ a =>
        obtain ⟨q, tw2, hq, htw2, hq2⟩ := e4 a (by omega)
        simp only [List.getElem?_set] at hq
        rw [if_neg (by omega)] at hq
        refine ⟨q, tw2, by rw [← hq]; congr 1; omega, htw2, ?_⟩
        have hone : (drawCalls [Event.widthOfTextAtSize font name (env.num.lit 12),
            Event.drawText doc.id j name
              (labelDraw env font name p.width p.height tw).options]).length = 1 := by
          simp [drawCalls]
        rw [List.getElem?_append_right (by omega), hone, Nat.add_sub_cancel, hq2]
        congr 3
        omega

theorem addPage_eq_ok {Num : Type} {env : Env Num} {doc doc' : PDFDocument Num}
    {page : Option (PDFPage Num)} {w w' : World Num} :
    doc.addPage env page w = (Except.ok doc', w') ↔
      env.addPage doc page = none ∧
        doc' = { doc with pages := doc.pages ++ [page.getD env.blankPage] } ∧
        w' = { w with trace := w.trace ++ [Event.addPage doc.id] } := by
  simp only [PDFDocument.addPage, bind_eq_ok, emit_apply, ofFailure_eq_ok, pure_apply,
    Prod.mk.injEq, Except.ok.injEq]
  constructor
  · rintro ⟨_, _, ⟨-, rfl⟩, _, _, ⟨h, rfl⟩, rfl, rfl⟩
    exact ⟨h, rfl, rfl⟩
  · rintro ⟨h, rfl, rfl⟩
    exact ⟨(), _, ⟨True.intro, rfl⟩, (), _, ⟨h, rfl⟩, rfl, rfl⟩

theorem addPages_ok {Num : Type} {env : Env Num} {copiedPages : List (PDFPage Num)} :
    ∀ (remaining k : Nat) (doc doc' : PDFDocument Num) (w w' : World Num),
      addPages env copiedPages remaining k doc w = (Except.ok doc', w') →
      doc' = { doc with pages := doc.pages ++
          (List.range' k remaining).map fun a => copiedPages[a]?.getD env.blankPage } ∧
        w' = { w with trace := w.trace ++ List.replicate remaining (Event.addPage doc.id) } := by
  intro remaining
  induction remaining with
  | zero =>
    intro k doc doc' w w' h
    simp only [addPages, pure_apply, Prod.mk.injEq, Except.ok.injEq] at h
    obtain ⟨rfl, rfl⟩ := h
    simp
  | succ r ih =>
    intro k doc doc' w w' h
    simp only [addPages, bind_eq_ok] at h
    obtain ⟨doc1, w1, h1, h2⟩ := h
    obtain ⟨-, rfl, rfl⟩ := addPage_eq_ok.mp h1
    obtain ⟨rfl, rfl⟩ := ih _ _ _ _ _ h2
    simp [List.range'_succ, List.replicate_succ]

theorem addPages_apply {Num : Type} (env : Env Num) (copiedPages : List (PDFPage Num))
    (hadd : ∀ doc page, env.addPage doc page = none) :
    ∀ (remaining k : Nat) (doc : PDFDocument Num) (w : World Num),
      addPages env copiedPages remaining k doc w =
        (Except.ok { doc with pages := doc.pages ++
            (List.range' k remaining).map fun a => copiedPages[a]?.getD env.blankPage },
          { w with trace := w.trace ++ List.replicate remaining (Event.addPage doc.id) }) := by
  intro remaining
  induction remaining with
  | zero => intro k doc w; simp [addPages, pure_apply]
  | succ r ih =>
    intro k doc w
    rw [addPages, bind_of_ok _ (addPage_eq_ok.mpr ⟨hadd _ _, rfl, rfl⟩), ih]
    simp [List.range'_succ, List.replicate_succ]

theorem map_getD_range' {α : Type} (l : List α) (d : α) :
    ((List.range' 0 l.length).map fun a => l[a]?.getD d) = l := by
  apply List.ext_getElem?
  intro i
  rcases Nat.lt_or_ge i l.length with h | h
  · simp [List.getElem?_map, List.getElem?_range', h, List.getElem?_eq_getElem h]
  · simp [List.getElem?_eq_none h, List.getElem?_map, List.getElem?_range', h]

theorem load_eq_ok {Num : Type} {env : Env Num} {bytes : Bytes} {doc : PDFDocument Num}
    {w w' : World Num} :
    PDFDocument.load env bytes w = (Except.ok doc, w') ↔
      env.loadFailure w.nextDoc bytes = none ∧
      ∃ parsed, env.load bytes = Except.ok parsed ∧
        doc = { id := w.nextDoc, fontkit := false, fonts := [],
                pages := parsed.map PDFPage.ofParsed } ∧
        w' = { w with nextDoc := w.nextDoc + 1, trace := w.trace ++ [Event.load bytes] } := by
  unfold PDFDocument.load
  cases hf : env.loadFailure w.nextDoc bytes with
  | some e => simp
  | none =>
    cases h : env.load bytes with
    | error e => simp
    | ok parsed => simp [eq_comm]

theorem embedFont_eq_ok {Num : Type} {env : Env Num} {doc doc' : PDFDocument Num}
    {fontBytes : Bytes} {font : PDFFont} {w w' : World Num} :
    doc.embedFont env fontBytes w = (Except.ok (font, doc'), w') ↔
      env.embedFont doc fontBytes = none ∧ font = { doc := doc.id, program := fontBytes } ∧
        doc' = { doc with fonts := doc.fonts ++ [{ doc := doc.id, program := fontBytes }] } ∧
        w' = { w with trace := w.trace ++ [Event.embedFont doc.id fontBytes] } := by
  simp only [PDFDocument.embedFont, bind_eq_ok, emit_apply, ofFailure_eq_ok, pure_apply,
    Prod.mk.injEq, Except.ok.injEq]
  constructor
  · rintro ⟨_, _, ⟨-, rfl⟩, _, _, ⟨h, rfl⟩, ⟨rfl, rfl⟩, rfl⟩
    exact ⟨h, rfl, rfl, rfl⟩
  · rintro ⟨h, rfl, rfl, rfl⟩
    exact ⟨(), _, ⟨True.intro, rfl⟩, (), _, ⟨h, rfl⟩, ⟨rfl, rfl⟩, rfl⟩

theorem save_eq_ok {Num : Type} {env : Env Num} {doc : PDFDocument Num} {bytes : Bytes}
    {w w' : World Num} :
    doc.save env w = (Except.ok bytes, w') ↔
      env.save doc = Except.ok bytes ∧
        w' = { w with trace := w.trace ++ [Event.save doc] } := by
  simp only [PDFDocument.save, bind_eq_ok, emit_apply, ofExcept_apply, Prod.mk.injEq,
    Except.ok.injEq]
  constructor
  · rintro ⟨_, _, ⟨-, rfl⟩, h, rfl⟩
    exact ⟨h, rfl⟩
  · rintro ⟨h, rfl⟩
    exact ⟨(), _, ⟨True.intro, rfl⟩, h, rfl⟩

theorem copyPages_eq_ok {Num : Type} {env : Env Num} {dst src : PDFDocument Num}
    {indices : List (Option Nat)} {copied : List (PDFPage Num)} {w w' : World Num} :
    dst.copyPages env src indices w = (Except.ok copied, w') ↔
      env.copyPages dst src indices = none ∧ selectPages src.pages indices = some copied ∧
        w' = { w with trace := w.trace ++ [Event.copyPages dst.id src.id indices] } := by
  simp only [PDFDocument.copyPages, bind_eq_ok, emit_apply, ofFailure_eq_ok, Prod.mk.injEq,
    Except.ok.injEq]
  cases hs : selectPages src.pages indices with
  | none =>
    simp [throwJS_apply]
  | some c =>
    simp only [pure_apply, Prod.mk.injEq, Except.ok.injEq, Option.some.injEq]
    constructor
    · rintro ⟨_, _, ⟨-, rfl⟩, _, _, ⟨h, rfl⟩, rfl, rfl⟩
      exact ⟨h, rfl, rfl⟩
    · rintro ⟨h, rfl, rfl⟩
      exact ⟨(), _, ⟨True.intro, rfl⟩, (), _, ⟨h, rfl⟩, rfl, rfl⟩

theorem progressBarIncrement_apply {Num : Type} (w : World Num) :
    progressBarIncrement w =
      (Except.ok (),
        { w with
          progressBar := w.progressBar.increment
          trace := w.trace ++ [Event.progressIncrement] }) := rfl

theorem labelName_ok {Num : Type} {env : Env Num} {existingPdfBytes customFont : Bytes}
    {nameList : List String} {i : Nat} {st st' : LoopState Num} {w w' : World Num}
    (h : labelName env existingPdfBytes customFont nameList i st w = (Except.ok st', w')) :
    ∃ (parsed : List (ParsedPage Num)) (tempPdfDoc : PDFDocument Num)
      (copiedPages : List (PDFPage Num)) (evs : List (Event Num)),
      env.load existingPdfBytes = Except.ok parsed ∧
      tempPdfDoc.id = w.nextDoc ∧
      tempPdfDoc.fonts = [{ doc := w.nextDoc, program := customFont }] ∧
      tempPdfDoc.pages.length = parsed.length ∧
      (∀ (j : Nat) (p : ParsedPage Num), parsed[j]? = some p → ∃ tw,
        env.widthOfTextAtSize { doc := w.nextDoc, program := customFont } (nameList.getD i "")
          (env.num.lit 12) = Except.ok tw ∧
        tempPdfDoc.pages[j]? = some (stamp env { doc := w.nextDoc, program := customFont }
          (nameList.getD i "") tw (PDFPage.ofParsed p))) ∧
      selectPages tempPdfDoc.pages (st.indices.getD (indexArray parsed.length)) =
        some copiedPages ∧
      st'.indices = some (st.indices.getD (indexArray parsed.length)) ∧
      st'.pdfDoc = { st.pdfDoc with pages := st.pdfDoc.pages ++
        (List.range' 0 parsed.length).map fun a => copiedPages[a]?.getD env.blankPage } ∧
      w'.nextDoc = w.nextDoc + 1 ∧
      w'.progressBar = w.progressBar.increment ∧
      w'.trace = w.trace ++
        ([Event.load existingPdfBytes, Event.embedFont w.nextDoc customFont] ++ evs ++
          [Event.save tempPdfDoc,
           Event.copyPages st.pdfDoc.id w.nextDoc
             (st.indices.getD (indexArray parsed.length))] ++
          List.replicate parsed.length (Event.addPage st.pdfDoc.id) ++
          [Event.progressIncrement]) ∧
      (∀ ev ∈ evs, isPageEvent ev) ∧
      (drawCalls evs).length = parsed.length ∧
      ∀ (j : Nat) (p : ParsedPage Num), parsed[j]? = some p → ∃ tw,
        env.widthOfTextAtSize { doc := w.nextDoc, program := customFont } (nameList.getD i "")
          (env.num.lit 12) = Except.ok tw ∧
        (drawCalls evs)[j]? = some (w.nextDoc, j, nameList.getD i "",
          (labelDraw env { doc := w.nextDoc, program := customFont } (nameList.getD i "")
            p.width p.height tw).options) := by
  simp only [labelName, bind_eq_ok, load_eq_ok, save_eq_ok, copyPages_eq_ok,
    progressBarIncrement_apply, pure_apply, Prod.mk.injEq, Except.ok.injEq] at h
  obtain ⟨doc0, w1, ⟨-, parsed, hload, rfl, rfl⟩, ⟨font, doc1⟩, w2, hemb, doc2, w3, hpages, _, _,
    ⟨-, rfl⟩, copied, _, ⟨-, hsel, rfl⟩, _, _, hadd, _, _, ⟨-, rfl⟩, rfl, rfl⟩ := h
  obtain ⟨rfl, rfl⟩ := addPages_ok _ _ _ _ _ _ hadd
  obtain ⟨-, rfl, rfl, rfl⟩ := embedFont_eq_ok.mp hemb
  simp only [PDFDocument.registerFontkit, PDFDocument.getPageCount, List.length_map,
    List.nil_append] at hpages hsel ⊢
  obtain ⟨e1, e2, e3, e4, e5, e6, -, -, e9⟩ := forPages_ok _ _ _ _ _ _ hpages
  obtain ⟨evs, t1, t2, t3, t4⟩ := forPages_trace _ _ _ _ _ _ hpages
  simp only [List.length_map] at e4 e5 e6 e9 t1 t3 t4
  have hix : (match st.indices with
      | none => fillIndices parsed.length 0 (newArray parsed.length)
      | some indices => indices) = st.indices.getD (indexArray parsed.length) := by
    cases st.indices <;> simp [fillIndices_newArray]
  rw [hix] at hsel
  refine ⟨parsed, doc2, copied, evs, hload, e1, e3, e4, ?_, hsel, by simp [hix], rfl, by simp [e5],
    by simp [e6], by simp [t1, e1, hix], t2, t3, ?_⟩
  · intro j p hp
    have hj : j < parsed.length := by
      rcases Nat.lt_or_ge j parsed.length with hlt | hge
      · exact hlt
      · rw [List.getElem?_eq_none hge] at hp
        cases hp
    obtain ⟨q, tw, hq, htw, hq2⟩ := e9 j (by omega) (by omega)
    simp only [List.getElem?_map, hp, Option.map_some'] at hq
    cases hq
    exact ⟨tw, htw, hq2⟩
  · intro j p hp
    have hj : j < parsed.length := by
      rcases Nat.lt_or_ge j parsed.length with hlt | hge
      · exact hlt
      · rw [List.getElem?_eq_none hge] at hp
        cases hp
    obtain ⟨q, tw, hq, htw, hq2⟩ := t4 j hj
    simp only [Nat.zero_add, List.getElem?_map, hp, Option.map_some'] at hq
    cases hq
    exact ⟨tw, htw, by simpa [PDFPage.ofParsed] using hq2⟩

theorem getElem?_isSome_lt {α : Type} {l : List α} {j : Nat} {p : α} (h : l[j]? = some p) :
    j < l.length := by
  rcases Nat.lt_or_ge j l.length with hlt | hge
  · exact hlt
  · rw [List.getElem?_eq_none hge] at h
    cases h

theorem labelName_pages {Num : Type} {env : Env Num} {existingPdfBytes customFont : Bytes}
    {nameList : List String} {i : Nat} {st st' : LoopState Num} {w w' : World Num}
    {parsed : List (ParsedPage Num)}
    (h : labelName env existingPdfBytes customFont nameList i st w = (Except.ok st', w'))
    (hload : env.load existingPdfBytes = Except.ok parsed)
    (hix : st.indices = none ∨ st.indices = some (indexArray parsed.length)) :
    st'.indices = some (indexArray parsed.length) ∧
    st'.pdfDoc.id = st.pdfDoc.id ∧
    st'.pdfDoc.pages.length = st.pdfDoc.pages.length + parsed.length ∧
    (∀ k, k < st.pdfDoc.pages.length → st'.pdfDoc.pages[k]? = st.pdfDoc.pages[k]?) ∧
    (∃ tempPdfDoc : PDFDocument Num, Event.save tempPdfDoc ∈ w'.trace ∧
      tempPdfDoc.id = w.nextDoc ∧
      tempPdfDoc.fonts = [{ doc := w.nextDoc, program := customFont }] ∧
      tempPdfDoc.pages.length = parsed.length ∧
      ∀ (j : Nat) (p : ParsedPage Num), parsed[j]? = some p → ∃ tw,
        env.widthOfTextAtSize { doc := w.nextDoc, program := customFont } (nameList.getD i "")
          (env.num.lit 12) = Except.ok tw ∧
        tempPdfDoc.pages[j]? =
          some (stamp env { doc := w.nextDoc, program := customFont } (nameList.getD i "") tw
            (PDFPage.ofParsed p)) ∧
        st'.pdfDoc.pages[st.pdfDoc.pages.length + j]? =
          some (stamp env { doc := w.nextDoc, program := customFont } (nameList.getD i "") tw
            (PDFPage.ofParsed p))) ∧
    w'.nextDoc = w.nextDoc + 1 ∧
    w'.progressBar = w.progressBar.increment ∧
    ∃ evs, w'.trace = w.trace ++ evs := by
  obtain ⟨parsed', doc, copied, evs, hload', hid, hfonts, hlen, hpages, hsel, hidx, hdoc, hnext,
    hbar, htrace, -⟩ := labelName_ok h
  rw [hload] at hload'
  cases hload'
  have hget : st.indices.getD (indexArray parsed.length) = indexArray parsed.length := by
    rcases hix with h0 | h0 <;> simp [h0]
  rw [hget] at hsel hidx
  rw [← hlen, selectPages_indexArray] at hsel
  cases hsel
  rw [← hlen, map_getD_range'] at hdoc
  refine ⟨hidx, by rw [hdoc], by rw [hdoc]; simp [hlen], ?_, ⟨doc, ?_, hid, hfonts, hlen, ?_⟩,
    hnext, hbar, ⟨_, htrace⟩⟩
  · intro k hk
    rw [hdoc]
    simp [List.getElem?_append_left hk]
  · rw [htrace]
    simp
  · intro j p hp
    obtain ⟨tw, htw, hq⟩ := hpages j p hp
    refine ⟨tw, htw, hq, ?_⟩
    rw [hdoc]
    simp only
    rw [List.getElem?_append_right (by omega), Nat.add_sub_cancel_left, hq]

theorem forNames_ok {Num : Type} {env : Env Num} {existingPdfBytes customFont : Bytes}
    {nameList : List String} {parsed : List (ParsedPage Num)}
    (hload : env.load existingPdfBytes = Except.ok parsed) :
    ∀ (remaining i : Nat) (st st' : LoopState Num) (w w' : World Num),
      forNames env existingPdfBytes customFont nameList remaining i st w = (Except.ok st', w') →
      (st.indices = none ∨ st.indices = some (indexArray parsed.length)) →
      st'.pdfDoc.id = st.pdfDoc.id ∧
      st'.pdfDoc.pages.length = st.pdfDoc.pages.length + remaining * parsed.length ∧
      (∀ k, k < st.pdfDoc.pages.length → st'.pdfDoc.pages[k]? = st.pdfDoc.pages[k]?) ∧
      (∀ a, a < remaining → ∃ tempPdfDoc : PDFDocument Num, Event.save tempPdfDoc ∈ w'.trace ∧
        tempPdfDoc.id = w.nextDoc + a ∧
        tempPdfDoc.fonts = [{ doc := w.nextDoc + a, program := customFont }] ∧
        tempPdfDoc.pages.length = parsed.length ∧
        ∀ (j : Nat) (p : ParsedPage Num), parsed[j]? = some p → ∃ tw,
          env.widthOfTextAtSize { doc := w.nextDoc + a, program := customFont }
            (nameList.getD (i + a) "") (env.num.lit 12) = Except.ok tw ∧
          tempPdfDoc.pages[j]? =
            some (stamp env { doc := w.nextDoc + a, program := customFont }
              (nameList.getD (i + a) "") tw (PDFPage.ofParsed p)) ∧
          st'.pdfDoc.pages[st.pdfDoc.pages.length + a * parsed.length + j]? =
            some (stamp env { doc := w.nextDoc + a, program := customFont }
              (nameList.getD (i + a) "") tw (PDFPage.ofParsed p))) ∧
      w'.nextDoc = w.nextDoc + remaining ∧
      w'.progressBar = ProgressBar.increment^[remaining] w.progressBar ∧
      (0 < remaining → st'.indices = some (indexArray parsed.length)) ∧
      ∃ evs, w'.trace = w.trace ++ evs := by
  intro remaining
  induction remaining with
  | zero =>
    intro i st st' w w' h _
    simp only [forNames, pure_apply, Prod.mk.injEq, Except.ok.injEq] at h
    obtain ⟨rfl, rfl⟩ := h
    refine ⟨rfl, by simp, fun _ _ => rfl, ?_, rfl, rfl, ?_, ⟨[], by simp⟩⟩
    · intro a ha
      omega
    · intro h0
      omega
  | succ r ih =>
    intro i st st' w w' h hix
    simp only [forNames, bind_eq_ok] at h
    obtain ⟨st1, w1, h1, h2⟩ := h
    obtain ⟨a1, a2, a3, a4, ⟨doc, a5s, a5i, a5f, a5l, a5⟩, a6, a7, ⟨evs1, a8⟩⟩ :=
      labelName_pages h1 hload hix
    obtain ⟨b1, b2, b3, b4, b5, b6, b7, ⟨evs2, b8⟩⟩ := ih _ _ _ _ _ h2 (Or.inr a1)
    refine ⟨by rw [b1, a2], ?_, ?_, ?_, by rw [b5, a6]; omega, ?_, ?_,
      ⟨evs1 ++ evs2, by rw [b8, a8, List.append_assoc]⟩⟩
    · rw [b2, a3, Nat.succ_mul]
      omega
    · intro k hk
      rw [b3 k (by omega), a4 k hk]
    · intro a ha
      cases a with
      | zero =>
        refine ⟨doc, ?_, by simpa using a5i, by simpa using a5f, a5l, ?_⟩
        · rw [b8]
          exact List.mem_append_left _ a5s
        · intro j p hp
          have hj := getElem?_isSome_lt hp
          obtain ⟨tw, htw, hq1, hq2⟩ := a5 j p hp
          refine ⟨tw, by simpa using htw, by simpa using hq1, ?_⟩
          simp only [Nat.zero_mul, Nat.add_zero]
          rw [b3 _ (by omega), hq2]
      | succ a =>
        obtain ⟨doc2, c1, c2, c3, c4, c5⟩ := b4 a (by omega)
        have e1 : w1.nextDoc + a = w.nextDoc + (a + 1) := by omega
        have e2 : i + 1 + a = i + (a + 1) := by omega
        have e3 : ∀ j, st1.pdfDoc.pages.length + a * parsed.length + j =
            st.pdfDoc.pages.length + (a + 1) * parsed.length + j := by
          intro j
          rw [a3, Nat.succ_mul]
          omega
        rw [e1] at c2 c3 c5
        rw [e2] at c5
        refine ⟨doc2, c1, c2, c3, c4, ?_⟩
        intro j p hp
        obtain ⟨tw, htw, hq1, hq2⟩ := c5 j p hp
        rw [e3] at hq2
        exact ⟨tw, htw, hq1, hq2⟩
    · rw [b6, a7, Function.iterate_succ_apply]
    · intro _
      rcases Nat.eq_zero_or_pos r with h0 | hpos
      · subst h0
        simp only [forNames, pure_apply, Prod.mk.injEq, Except.ok.injEq] at h2
        rw [← h2.1]
        exact a1
      · exact b7 hpos

theorem readInputFile_eq_ok {Num : Type} {env : Env Num} {path : String} {bytes : Bytes}
    {w w' : World Num} :
    readInputFile env path w = (Except.ok bytes, w') ↔
      env.readFileSync path = Except.ok bytes ∧
        w' = { w with trace := w.trace ++ [Event.readFileSync path] } := by
  unfold readInputFile
  rw [tryCatch_eq_ok]
  simp only [bind_eq_ok, emit_apply, ofExcept_apply, Prod.mk.injEq, Except.ok.injEq]
  constructor
  · rintro ⟨_, _, ⟨-, rfl⟩, h, rfl⟩
    exact ⟨h, rfl⟩
  · rintro ⟨h, rfl⟩
    exact ⟨(), _, ⟨True.intro, rfl⟩, h, rfl⟩

theorem readNameListFile_eq_ok {Num : Type} {env : Env Num} {path : String} {text : String}
    {w w' : World Num} :
    readNameListFile env path w = (Except.ok text, w') ↔
      env.readFileSyncUtf8 path = Except.ok text ∧
        w' = { w with trace := w.trace ++ [Event.readFileSync path] } := by
  unfold readNameListFile
  rw [tryCatch_eq_ok]
  simp only [bind_eq_ok, emit_apply, ofExcept_apply, Prod.mk.injEq, Except.ok.injEq]
  constructor
  · rintro ⟨_, _, ⟨-, rfl⟩, h, rfl⟩
    exact ⟨h, rfl⟩
  · rintro ⟨h, rfl⟩
    exact ⟨(), _, ⟨True.intro, rfl⟩, h, rfl⟩

theorem readFontFile_eq_ok {Num : Type} {env : Env Num} {path : String} {bytes : Bytes}
    {w w' : World Num} :
    readFontFile env path w = (Except.ok bytes, w') ↔
      env.readFileSync path = Except.ok bytes ∧
        w' = { w with trace := w.trace ++ [Event.readFileSync path] } := by
  unfold readFontFile
  rw [tryCatch_eq_ok]
  simp only [bind_eq_ok, emit_apply, ofExcept_apply, Prod.mk.injEq, Except.ok.injEq]
  constructor
  · rintro ⟨_, _, ⟨-, rfl⟩, h, rfl⟩
    exact ⟨h, rfl⟩
  · rintro ⟨h, rfl⟩
    exact ⟨(), _, ⟨True.intro, rfl⟩, h, rfl⟩

theorem printAppInfo_apply {Num : Type} (w : World Num) :
    printAppInfo w = (Except.ok (), { w with trace := w.trace ++ appInfoLines }) := by
  simp [printAppInfo, consoleLog, bind_apply, Eff.bind, emit_apply, appInfoLines]

theorem create_apply {Num : Type} (w : World Num) :
    (PDFDocument.create : Eff Num (PDFDocument Num)) w =
      (Except.ok { id := w.nextDoc, fontkit := false, fonts := [], pages := [] },
        { w with nextDoc := w.nextDoc + 1, trace := w.trace ++ [Event.create w.nextDoc] }) :=
  rfl

theorem progressBarStart_apply {Num : Type} (env : Env Num) (total startValue : Nat)
    (w : World Num) :
    progressBarStart env total startValue w =
      (Except.ok (),
        { w with
          progressBar := w.progressBar.start env.isTTY total startValue
          trace := w.trace ++ [Event.progressStart total startValue] }) := rfl

theorem labelAll_ok {Num : Type} {env : Env Num} {st : LoopState Num} {w w' : World Num}
    (h : labelAll env w = (Except.ok st, w')) :
    ∃ existingPdfBytes nameListFile customFont,
      env.readFileSync (inputFilePath env) = Except.ok existingPdfBytes ∧
      env.readFileSyncUtf8 (nameListFilePath env) = Except.ok nameListFile ∧
      env.readFileSync (fontFilePath env) = Except.ok customFont ∧
      forNames env existingPdfBytes customFont (split nameListFile newline)
        (split nameListFile newline).length 0
        { pdfDoc := { id := w.nextDoc, fontkit := false, fonts := [], pages := [] },
          indices := none }
        (loopStart env (split nameListFile newline).length w) = (Except.ok st, w') := by
  simp only [labelAll, bind_eq_ok, printAppInfo_apply, readInputFile_eq_ok,
    readNameListFile_eq_ok, readFontFile_eq_ok, create_apply, progressBarStart_apply,
    Prod.mk.injEq, Except.ok.injEq] at h
  obtain ⟨_, _, ⟨-, rfl⟩, bytes, _, ⟨h1, rfl⟩, text, _, ⟨h2, rfl⟩, font, _, ⟨h3, rfl⟩, _, _,
    ⟨rfl, rfl⟩, _, _, ⟨-, rfl⟩, h4⟩ := h
  refine ⟨bytes, text, font, h1, h2, h3, ?_⟩
  simpa [loopStart] using h4

/-! ## What a computation can emit, whatever its outcome -/

theorem emits_nil {Num α : Type} {P : Event Num → Prop} {x : Eff Num α} {w : World Num}
    (h : (x w).2.trace = w.trace) : Emits P x w :=
  ⟨[], by simp [h], by simp⟩

theorem emits_mono {Num α : Type} {P Q : Event Num → Prop} {x : Eff Num α} {w : World Num}
    (h : Emits P x w) (hPQ : ∀ ev, P ev → Q ev) : Emits Q x w := by
  obtain ⟨evs, h1, h2⟩ := h
  exact ⟨evs, h1, fun ev hev => hPQ ev (h2 ev hev)⟩

theorem emits_pure {Num α : Type} {P : Event Num → Prop} (a : α) (w : World Num) :
    Emits P (pure a : Eff Num α) w :=
  emits_nil rfl

theorem emits_throwJS {Num α : Type} {P : Event Num → Prop} (e : JSError) (w : World Num) :
    Emits P (throwJS e : Eff Num α) w :=
  emits_nil rfl

theorem emits_ofExcept {Num α : Type} {P : Event Num → Prop} (r : Except JSError α)
    (w : World Num) : Emits P (ofExcept r) w :=
  emits_nil rfl

theorem emits_ofFailure {Num : Type} {P : Event Num → Prop} (r : Option JSError)
    (w : World Num) : Emits P (ofFailure r) w := by
  apply emits_nil
  unfold ofFailure
  cases r <;> rfl

theorem emits_emit {Num : Type} {P : Event Num → Prop} {ev : Event Num} (h : P ev)
    (w : World Num) : Emits P (emit ev) w :=
  ⟨[ev], rfl, by simpa using h⟩

theorem emits_bind {Num α β : Type} {P : Event Num → Prop} {x : Eff Num α}
    {f : α → Eff Num β} {w : World Num} (hx : Emits P x w)
    (hf : ∀ a w1, x w = (Except.ok a, w1) → Emits P (f a) w1) : Emits P (x >>= f) w := by
  obtain ⟨evs, h1, h2⟩ := hx
  rcases hxw : x w with ⟨r, w1⟩
  rw [hxw] at h1
  cases r with
  | error e =>
    refine ⟨evs, ?_, h2⟩
    rw [bind_of_error f hxw]
    exact h1
  | ok a =>
    obtain ⟨evs2, h3, h4⟩ := hf a w1 hxw
    refine ⟨evs ++ evs2, ?_, ?_⟩
    · rw [bind_of_ok f hxw, h3]
      simp only at h1
      rw [h1, List.append_assoc]
    · intro ev hev
      rcases List.mem_append.mp hev with hm | hm
      · exact h2 ev hm
      · exact h4 ev hm

theorem emits_tryCatch {Num α : Type} {P : Event Num → Prop} {body : Eff Num α}
    {handler : JSError → Eff Num α} {w : World Num} (hb : Emits P body w)
    (hh : ∀ e w1, body w = (Except.error e, w1) → Emits P (handler e) w1) :
    Emits P (tryCatch body handler) w := by
  obtain ⟨evs, h1, h2⟩ := hb
  rcases hbw : body w with ⟨r, w1⟩
  rw [hbw] at h1
  cases r with
  | ok a =>
    refine ⟨evs, ?_, h2⟩
    unfold tryCatch
    rw [hbw]
    exact h1
  | error e =>
    obtain ⟨evs2, h3, h4⟩ := hh e w1 hbw
    refine ⟨evs ++ evs2, ?_, ?_⟩
    · unfold tryCatch
      rw [hbw]
      simp only at h1 ⊢
      rw [h3, h1, List.append_assoc]
    · intro ev hev
      rcases List.mem_append.mp hev with hm | hm
      · exact h2 ev hm
      · exact h4 ev hm

theorem labelPage_emits {Num : Type} (env : Env Num) (font : PDFFont) (name : String) (j : Nat)
    (doc : PDFDocument Num) (w : World Num) :
    Emits isPageEvent (labelPage env font name j doc) w := by
  unfold labelPage
  cases doc.pages[j]? with
  | none => exact emits_throwJS _ _
  | some p =>
    simp only [PDFFont.widthOfTextAtSize, PDFPage.drawText]
    refine emits_bind (emits_bind (emits_emit True.intro _) fun _ _ _ => emits_ofExcept _ _)
      fun _ _ _ => ?_
    refine emits_bind ?_ fun _ _ _ => emits_pure _ _
    refine emits_bind (emits_emit True.intro _) fun _ _ _ => ?_
    exact emits_bind (emits_ofFailure _ _) fun _ _ _ => emits_pure _ _

theorem forPages_emits {Num : Type} (env : Env Num) (font : PDFFont) (name : String) :
    ∀ (remaining j : Nat) (doc : PDFDocument Num) (w : World Num),
      Emits isPageEvent (forPages env font name remaining j doc) w := by
  intro remaining
  induction remaining with
  | zero => intro j doc w; exact emits_pure _ _
  | succ r ih =>
    intro j doc w
    unfold forPages
    exact emits_bind (labelPage_emits _ _ _ _ _ _) fun _ _ _ => ih _ _ _

theorem load_emits {Num : Type} {P : Event Num → Prop} (env : Env Num) (bytes : Bytes)
    (h : P (Event.load bytes)) (w : World Num) : Emits P (PDFDocument.load env bytes) w := by
  refine ⟨[Event.load bytes], ?_, by simpa using h⟩
  unfold PDFDocument.load
  cases env.loadFailure w.nextDoc bytes <;> cases env.load bytes <;> rfl

theorem embedFont_emits {Num : Type} {P : Event Num → Prop} (env : Env Num)
    (doc : PDFDocument Num) (fontBytes : Bytes) (h : P (Event.embedFont doc.id fontBytes))
    (w : World Num) : Emits P (doc.embedFont env fontBytes) w := by
  unfold PDFDocument.embedFont
  refine emits_bind (emits_emit h _) fun _ _ _ => ?_
  exact emits_bind (emits_ofFailure _ _) fun _ _ _ => emits_pure _ _

theorem save_emits {Num : Type} {P : Event Num → Prop} (env : Env Num)
    (doc : PDFDocument Num) (h : P (Event.save doc)) (w : World Num) :
    Emits P (doc.save env) w := by
  unfold PDFDocument.save
  exact emits_bind (emits_emit h _) fun _ _ _ => emits_ofExcept _ _

theorem copyPages_emits {Num : Type} {P : Event Num → Prop} (env : Env Num)
    (dst src : PDFDocument Num) (indices : List (Option Nat))
    (h : P (Event.copyPages dst.id src.id indices)) (w : World Num) :
    Emits P (dst.copyPages env src indices) w := by
  unfold PDFDocument.copyPages
  refine emits_bind (emits_emit h _) fun _ _ _ => ?_
  refine emits_bind (emits_ofFailure _ _) fun _ _ _ => ?_
  cases selectPages src.pages indices with
  | none => exact emits_throwJS _ _
  | some c => exact emits_pure _ _

theorem addPages_emits {Num : Type} {P : Event Num → Prop} (env : Env Num)
    (copiedPages : List (PDFPage Num)) :
    ∀ (remaining k : Nat) (doc : PDFDocument Num), P (Event.addPage doc.id) →
      ∀ w : World Num, Emits P (addPages env copiedPages remaining k doc) w := by
  intro remaining
  induction remaining with
  | zero => intro k doc _ w; exact emits_pure _ _
  | succ r ih =>
    intro k doc h w
    unfold addPages
    refine emits_bind ?_ fun doc1 w1 h1 => ?_
    · unfold PDFDocument.addPage
      refine emits_bind (emits_emit h _) fun _ _ _ => ?_
      exact emits_bind (emits_ofFailure _ _) fun _ _ _ => emits_pure _ _
    · obtain ⟨-, rfl, -⟩ := addPage_eq_ok.mp h1
      exact ih (k + 1)
        { doc with pages := doc.pages ++ [copiedPages[k]?.getD env.blankPage] } h w1

theorem progressBarIncrement_emits {Num : Type} {P : Event Num → Prop}
    (h : P Event.progressIncrement) (w : World Num) : Emits P progressBarIncrement w :=
  ⟨[Event.progressIncrement], rfl, by simpa using h⟩

theorem labelName_emits {Num : Type} (env : Env Num) (existingPdfBytes customFont : Bytes)
    (nameList : List String) (i : Nat) (st : LoopState Num) (w : World Num)
    (hix : st.indices = none ∨ st.indices = some (templateIndices env existingPdfBytes)) :
    Emits (isLoopEvent existingPdfBytes (templateIndices env existingPdfBytes))
      (labelName env existingPdfBytes customFont nameList i st) w := by
  unfold labelName
  refine emits_bind (load_emits _ _ (by simp [isLoopEvent]) _) fun doc0 w1 h0 => ?_
  obtain ⟨-, parsed, hload, rfl, rfl⟩ := load_eq_ok.mp h0
  refine emits_bind (embedFont_emits _ _ _ True.intro _) fun fd w2 h1 => ?_
  obtain ⟨font, doc1⟩ := fd
  obtain ⟨-, rfl, rfl, rfl⟩ := embedFont_eq_ok.mp h1
  refine emits_bind (emits_mono (forPages_emits _ _ _ _ _ _ _) ?_) fun doc2 w3 h2 => ?_
  · intro ev hev
    cases ev <;> first | exact True.intro | exact hev.elim
  obtain ⟨-, -, -, hlen, -⟩ := forPages_ok _ _ _ _ _ _ h2
  refine emits_bind (save_emits _ _ True.intro _) fun _ w4 _ => ?_
  have hidx : (match st.indices with
      | none => fillIndices parsed.length 0 (newArray parsed.length)
      | some indices => indices) = templateIndices env existingPdfBytes := by
    have ht : templateIndices env existingPdfBytes = indexArray parsed.length := by
      simp [templateIndices, hload]
    rcases hix with h | h
    · simp [h, ht, fillIndices_newArray]
    · simp [h]
  simp only [PDFDocument.registerFontkit, PDFDocument.getPageCount, List.length_map, hidx]
  refine emits_bind (copyPages_emits _ _ _ _ (by simp [isLoopEvent]) _) fun _ _ _ => ?_
  refine emits_bind (addPages_emits _ _ _ _ _ True.intro _) fun _ _ _ => ?_
  exact emits_bind (progressBarIncrement_emits True.intro _) fun _ _ _ => emits_pure _ _

theorem labelName_indices {Num : Type} {env : Env Num} {existingPdfBytes customFont : Bytes}
    {nameList : List String} {i : Nat} {st st' : LoopState Num} {w w' : World Num}
    (h : labelName env existingPdfBytes customFont nameList i st w = (Except.ok st', w'))
    (hix : st.indices = none ∨ st.indices = some (templateIndices env existingPdfBytes)) :
    st'.indices = some (templateIndices env existingPdfBytes) := by
  obtain ⟨parsed, -, -, -, hload, -, -, -, -, -, hidx, -⟩ := labelName_ok h
  have ht : templateIndices env existingPdfBytes = indexArray parsed.length := by
    simp [templateIndices, hload]
  rw [hidx, ht]
  rcases hix with h0 | h0
  · simp [h0]
  · simp [h0, ht]

theorem forNames_emits {Num : Type} (env : Env Num) (existingPdfBytes customFont : Bytes)
    (nameList : List String) :
    ∀ (remaining i : Nat) (st : LoopState Num) (w : World Num),
      (st.indices = none ∨ st.indices = some (templateIndices env existingPdfBytes)) →
      Emits (isLoopEvent existingPdfBytes (templateIndices env existingPdfBytes))
        (forNames env existingPdfBytes customFont nameList remaining i st) w := by
  intro remaining
  induction remaining with
  | zero => intro i st w _; exact emits_pure _ _
  | succ r ih =>
    intro i st w hix
    unfold forNames
    refine emits_bind (labelName_emits _ _ _ _ _ _ _ hix) fun st1 w1 h1 => ?_
    exact ih _ _ _ (Or.inr (labelName_indices h1 hix))

theorem readInputFile_emits {Num : Type} {P : Event Num → Prop} (env : Env Num)
    (path : String) (h : P (Event.readFileSync path)) (w : World Num) :
    Emits P (readInputFile env path) w := by
  unfold readInputFile
  refine emits_tryCatch ?_ fun _ _ _ => emits_throwJS _ _
  exact emits_bind (emits_emit h _) fun _ _ _ => emits_ofExcept _ _

theorem readNameListFile_emits {Num : Type} {P : Event Num → Prop} (env : Env Num)
    (path : String) (h : P (Event.readFileSync path)) (w : World Num) :
    Emits P (readNameListFile env path) w := by
  unfold readNameListFile
  refine emits_tryCatch ?_ fun _ _ _ => emits_throwJS _ _
  exact emits_bind (emits_emit h _) fun _ _ _ => emits_ofExcept _ _

theorem readFontFile_emits {Num : Type} {P : Event Num → Prop} (env : Env Num)
    (path : String) (h : P (Event.readFileSync path)) (w : World Num) :
    Emits P (readFontFile env path) w := by
  unfold readFontFile
  refine emits_tryCatch ?_ fun _ _ _ => emits_throwJS _ _
  exact emits_bind (emits_emit h _) fun _ _ _ => emits_ofExcept _ _

theorem printAppInfo_emits {Num : Type} {P : Event Num → Prop}
    (h : ∀ line, P (Event.consoleLog line)) (w : World Num) :
    Emits P (printAppInfo : Eff Num Unit) w := by
  refine ⟨appInfoLines, by rw [printAppInfo_apply], ?_⟩
  intro ev hev
  simp only [appInfoLines, List.mem_cons, List.mem_singleton, List.not_mem_nil,
    or_false] at hev
  rcases hev with rfl | rfl | rfl | rfl | rfl | rfl | rfl <;> exact h _

theorem isBuildEvent_of_isLoopEvent {Num : Type} {bytes : Bytes} {indices : List (Option Nat)}
    (ev : Event Num) (h : isLoopEvent bytes indices ev) : isBuildEvent bytes indices ev := by
  cases ev <;> first | exact True.intro | exact h

theorem labelAll_emits {Num : Type} (env : Env Num) (w : World Num) :
    Emits (isBuildEvent (templateBytes env) (templateIndices env (templateBytes env)))
      (labelAll env) w := by
  unfold labelAll
  refine emits_bind (printAppInfo_emits (fun _ => True.intro) _) fun _ _ _ => ?_
  refine emits_bind (readInputFile_emits _ _ True.intro _) fun bytes w1 h1 => ?_
  have hb : templateBytes env = bytes := by
    simp [templateBytes, (readInputFile_eq_ok.mp h1).1]
  refine emits_bind (readNameListFile_emits _ _ True.intro _) fun _ _ _ => ?_
  refine emits_bind (readFontFile_emits _ _ True.intro _) fun _ _ _ => ?_
  refine emits_bind ⟨[Event.create _], rfl, by simp [isBuildEvent]⟩ fun _ _ _ => ?_
  refine emits_bind ⟨[Event.progressStart _ _], rfl, by simp [isBuildEvent]⟩ fun _ _ _ => ?_
  rw [hb]
  exact emits_mono (forNames_emits _ _ _ _ _ _ _ _ (Or.inl rfl)) isBuildEvent_of_isLoopEvent

theorem buildOutput_emits {Num : Type} (env : Env Num) (w : World Num) :
    Emits (isBuildEvent (templateBytes env) (templateIndices env (templateBytes env)))
      (buildOutput env) w := by
  unfold buildOutput
  refine emits_bind (labelAll_emits env w) fun _ _ _ => ?_
  exact save_emits _ _ True.intro _

/-! ## The properties of `main` -/

/-- C1. When the run reaches the end of the loop over the names, the output document
`pdfDoc` has exactly `N * P` pages, for `N` the number of entries of the name list and `P`
the number of pages of the template. -/
theorem output_page_count {Num : Type} (env : Env Num) (w w' : World Num) (st : LoopState Num)
    (existingPdfBytes : Bytes) (nameListFile : String) (template : List (ParsedPage Num))
    (hrun : labelAll env w = (Except.ok st, w'))
    (hpdf : env.readFileSync (inputFilePath env) = Except.ok existingPdfBytes)
    (hnames : env.readFileSyncUtf8 (nameListFilePath env) = Except.ok nameListFile)
    (htemplate : env.load existingPdfBytes = Except.ok template) :
    st.pdfDoc.pages.length = (split nameListFile newline).length * template.length := by
  obtain ⟨bytes, text, font, h1, h2, -, h4⟩ := labelAll_ok hrun
  rw [hpdf] at h1
  cases h1
  rw [hnames] at h2
  cases h2
  obtain ⟨-, hlen, -⟩ := forNames_ok htemplate _ _ _ _ _ _ h4 (Or.inl rfl)
  simpa using hlen

theorem output_page_count_witness :
    labelAll sampleEnv (initialWorld Int) = (Except.ok sampleState, sampleWorld) ∧
      (split sampleNames newline).length = 2 ∧ sampleTemplate.length = 2 ∧
      sampleState.pdfDoc.pages.length =
        (split sampleNames newline).length * sampleTemplate.length :=
  ⟨by decide!, by decide!, by decide,
    output_page_count sampleEnv (initialWorld Int) sampleWorld sampleState [37, 80, 68, 70]
      sampleNames sampleTemplate (by decide!) (by decide!) (by decide!) (by decide!)⟩

theorem labelAll_block {Num : Type} {env : Env Num} {w w' : World Num} {st : LoopState Num}
    {existingPdfBytes customFont : Bytes} {nameListFile : String}
    {template : List (ParsedPage Num)} {i : Nat} {name : String}
    (hrun : labelAll env w = (Except.ok st, w'))
    (hpdf : env.readFileSync (inputFilePath env) = Except.ok existingPdfBytes)
    (hnames : env.readFileSyncUtf8 (nameListFilePath env) = Except.ok nameListFile)
    (hfont : env.readFileSync (fontFilePath env) = Except.ok customFont)
    (htemplate : env.load existingPdfBytes = Except.ok template)
    (hname : (split nameListFile newline)[i]? = some name) :
    st.pdfDoc.id = w.nextDoc ∧
    ∃ tempPdfDoc : PDFDocument Num, Event.save tempPdfDoc ∈ w'.trace ∧
      tempPdfDoc.id = w.nextDoc + 1 + i ∧
      tempPdfDoc.fonts = [{ doc := w.nextDoc + 1 + i, program := customFont }] ∧
      tempPdfDoc.pages.length = template.length ∧
      ∀ (j : Nat) (p : ParsedPage Num), template[j]? = some p → ∃ tw,
        env.widthOfTextAtSize { doc := w.nextDoc + 1 + i, program := customFont } name
          (env.num.lit 12) = Except.ok tw ∧
        tempPdfDoc.pages[j]? =
          some (stamp env { doc := w.nextDoc + 1 + i, program := customFont } name tw
            (PDFPage.ofParsed p)) ∧
        st.pdfDoc.pages[i * template.length + j]? =
          some (stamp env { doc := w.nextDoc + 1 + i, program := customFont } name tw
            (PDFPage.ofParsed p)) := by
  obtain ⟨bytes, text, font, h1, h2, h3, h4⟩ := labelAll_ok hrun
  rw [hpdf] at h1
  cases h1
  rw [hnames] at h2
  cases h2
  rw [hfont] at h3
  cases h3
  obtain ⟨hid, -, -, hblock, -⟩ := forNames_ok htemplate _ _ _ _ _ _ h4 (Or.inl rfl)
  have hi := getElem?_isSome_lt hname
  have hget : (split nameListFile newline).getD (0 + i) "" = name := by
    rw [Nat.zero_add, List.getD_eq_getElem?_getD, hname]
    rfl
  obtain ⟨doc, c1, c2, c3, c4, c5⟩ := hblock i hi
  rw [hget] at c5
  simp only [loopStart, List.length_nil, Nat.zero_add] at c2 c3 c5
  exact ⟨hid, doc, c1, c2, c3, c4, c5⟩

/-- C2. In a run that reaches the end of the loop over the names, the output page at index
`i * P + j` is the copy of template page `j` (same size, same content) on which entry `i` of
the name list was drawn: the output is made of blocks in the order of the name list, and each
block keeps the page order of the template. -/
theorem output_page_order {Num : Type} (env : Env Num) (w w' : World Num) (st : LoopState Num)
    (existingPdfBytes : Bytes) (nameListFile : String) (template : List (ParsedPage Num))
    (i j : Nat) (name : String) (page : ParsedPage Num)
    (hrun : labelAll env w = (Except.ok st, w'))
    (hpdf : env.readFileSync (inputFilePath env) = Except.ok existingPdfBytes)
    (hnames : env.readFileSyncUtf8 (nameListFilePath env) = Except.ok nameListFile)
    (htemplate : env.load existingPdfBytes = Except.ok template)
    (hname : (split nameListFile newline)[i]? = some name)
    (hpage : template[j]? = some page) :
    ∃ q, st.pdfDoc.pages[i * template.length + j]? = some q ∧
      q.width = page.width ∧ q.height = page.height ∧ q.content = page.content ∧
      q.drawn.map TextDraw.text = [name] := by
  obtain ⟨-, -, customFont, -, -, hfont, -⟩ := labelAll_ok hrun
  obtain ⟨-, doc, -, -, -, -, hpages⟩ := labelAll_block hrun hpdf hnames hfont htemplate hname
  obtain ⟨tw, -, -, hq⟩ := hpages j page hpage
  exact ⟨_, hq, rfl, rfl, rfl, rfl⟩

theorem output_page_order_witness :
    labelAll sampleEnv (initialWorld Int) = (Except.ok sampleState, sampleWorld) ∧
      (split sampleNames newline)[1]? = some "Bob" ∧
      sampleTemplate[0]? = some { width := 600, height := 800, content := [1] } ∧
      ∃ q, sampleState.pdfDoc.pages[1 * sampleTemplate.length + 0]? = some q ∧
        q.width = 600 ∧ q.height = 800 ∧ q.content = [1] ∧
        q.drawn.map TextDraw.text = ["Bob"] :=
  ⟨by decide!, by decide!, by decide!,
    output_page_order sampleEnv (initialWorld Int) sampleWorld sampleState [37, 80, 68, 70]
      sampleNames sampleTemplate 1 0 "Bob" { width := 600, height := 800, content := [1] }
      (by decide!) (by decide!) (by decide!) (by decide!) (by decide!) (by decide!)⟩

theorem widthOfTextAtSize_eq_ok {Num : Type} {env : Env Num} {font : PDFFont} {text : String}
    {size tw : Num} {w w' : World Num} :
    font.widthOfTextAtSize env text size w = (Except.ok tw, w') ↔
      env.widthOfTextAtSize font text size = Except.ok tw ∧
        w' = { w with trace := w.trace ++ [Event.widthOfTextAtSize font text size] } := by
  simp only [PDFFont.widthOfTextAtSize, bind_eq_ok, emit_apply, ofExcept_apply, Prod.mk.injEq,
    Except.ok.injEq]
  constructor
  · rintro ⟨_, _, ⟨-, rfl⟩, h, rfl⟩
    exact ⟨h, rfl⟩
  · rintro ⟨h, rfl⟩
    exact ⟨(), _, ⟨True.intro, rfl⟩, h, rfl⟩

theorem labelPage_draws {Num : Type} (env : Env Num) (font : PDFFont) (name : String) (j : Nat)
    (doc : PDFDocument Num) (w : World Num) :
    Emits (isLabelDraw env font name doc.id (doc.pages.map pageSize))
      (labelPage env font name j doc) w := by
  unfold labelPage
  cases hp : doc.pages[j]? with
  | none => exact emits_throwJS _ _
  | some p =>
    simp only
    refine emits_bind ?_ fun tw w1 h1 => ?_
    · unfold PDFFont.widthOfTextAtSize
      exact emits_bind (emits_emit True.intro _) fun _ _ _ => emits_ofExcept _ _
    obtain ⟨htw, -⟩ := widthOfTextAtSize_eq_ok.mp h1
    refine emits_bind ?_ fun _ _ _ => emits_pure _ _
    unfold PDFPage.drawText
    refine emits_bind (emits_emit ?_ _) fun _ _ _ => ?_
    · refine ⟨rfl, rfl, pageSize p, tw, ?_, htw, rfl⟩
      simp [List.getElem?_map, hp]
    · exact emits_bind (emits_ofFailure _ _) fun _ _ _ => emits_pure _ _

theorem forPages_draws {Num : Type} (env : Env Num) (font : PDFFont) (name : String) :
    ∀ (remaining j : Nat) (doc : PDFDocument Num) (w : World Num),
      Emits (isLabelDraw env font name doc.id (doc.pages.map pageSize))
        (forPages env font name remaining j doc) w := by
  intro remaining
  induction remaining with
  | zero => intro j doc w; exact emits_pure _ _
  | succ r ih =>
    intro j doc w
    unfold forPages
    refine emits_bind (labelPage_draws _ _ _ _ _ _) fun doc1 w1 h1 => ?_
    obtain ⟨p, tw, hp, -, rfl, -⟩ := labelPage_ok h1
    have hsizes : (doc.pages.set j (stamp env font name tw p)).map pageSize =
        doc.pages.map pageSize := by
      apply List.ext_getElem?
      intro k
      simp only [List.getElem?_map, List.getElem?_set]
      by_cases hk : j = k
      · subst hk
        simp [hp, getElem?_isSome_lt hp, stamp, pageSize]
      · simp [hk]
    have h := ih (j + 1) { doc with pages := doc.pages.set j (stamp env font name tw p) } w1
    simp only [hsizes] at h
    exact h

theorem labelName_draws {Num : Type} (env : Env Num) (existingPdfBytes customFont : Bytes)
    (nameList : List String) (i : Nat) (st : LoopState Num) (w : World Num)
    {template : List (ParsedPage Num)}
    (htemplate : env.load existingPdfBytes = Except.ok template) :
    Emits
      (isLabelDraw env { doc := w.nextDoc, program := customFont } (nameList.getD i "")
        w.nextDoc (template.map fun p => (p.width, p.height)))
      (labelName env existingPdfBytes customFont nameList i st) w := by
  unfold labelName
  refine emits_bind (load_emits _ _ True.intro _) fun doc0 w1 h0 => ?_
  obtain ⟨-, parsed, hload, rfl, rfl⟩ := load_eq_ok.mp h0
  rw [htemplate] at hload
  cases hload
  refine emits_bind (embedFont_emits _ _ _ True.intro _) fun fd w2 h1 => ?_
  obtain ⟨font, doc1⟩ := fd
  obtain ⟨-, rfl, rfl, rfl⟩ := embedFont_eq_ok.mp h1
  have hsizes : (template.map PDFPage.ofParsed).map pageSize =
      template.map fun p => (p.width, p.height) := by
    simp [PDFPage.ofParsed, pageSize]
  refine emits_bind ?_ fun doc2 w3 h2 => ?_
  · have h := forPages_draws env { doc := w.nextDoc, program := customFont }
      (nameList.getD i "") template.length 0
      { id := w.nextDoc, fontkit := true,
        fonts := [{ doc := w.nextDoc, program := customFont }],
        pages := template.map PDFPage.ofParsed }
      { nextDoc := w.nextDoc + 1, progressBar := w.progressBar,
        trace := w.trace ++ [Event.load existingPdfBytes] ++
          [Event.embedFont w.nextDoc customFont] }
    simp only [hsizes] at h
    simpa [PDFDocument.registerFontkit, PDFDocument.getPageCount] using h
  refine emits_bind (save_emits _ _ True.intro _) fun _ w4 _ => ?_
  refine emits_bind (copyPages_emits _ _ _ _ True.intro _) fun _ _ _ => ?_
  refine emits_bind (addPages_emits _ _ _ _ _ True.intro _) fun _ _ _ => ?_
  exact emits_bind (progressBarIncrement_emits True.intro _) fun _ _ _ => emits_pure _ _

/-- C3. Every `drawText` call of a round of the loop over the names, whether the round
completes or not, is made on a page `j` of the working copy loaded in this round, of size
`(width, height)`, with the text `name`, `x = width - textWidth - 16` for `textWidth` the
width of `name` at size 12, `y = height - 24`, size 12, the font that this round embedded
into the same working copy, and the colour `rgb(0, 0, 0)`. In a round that completes there
is exactly one such call for every page, in page order. The hypothesis `hmul` says that
`12 * 2` evaluates to `24`, as it does for JavaScript numbers. -/
theorem label_draw_parameters {Num : Type} (env : Env Num)
    (existingPdfBytes customFont : Bytes) (nameList : List String) (i : Nat)
    (st : LoopState Num) (w : World Num) (template : List (ParsedPage Num)) (name : String)
    (hmul : env.num.mul (env.num.lit 12) (env.num.lit 2) = env.num.lit 24)
    (htemplate : env.load existingPdfBytes = Except.ok template)
    (hname : nameList[i]? = some name) :
    ∃ evs,
      (labelName env existingPdfBytes customFont nameList i st w).2.trace = w.trace ++ evs ∧
      (∀ doc j text options, Event.drawText doc j text options ∈ evs →
        doc = w.nextDoc ∧ text = name ∧ ∃ page textWidth, template[j]? = some page ∧
          env.widthOfTextAtSize { doc := w.nextDoc, program := customFont } name
            (env.num.lit 12) = Except.ok textWidth ∧
          options =
            { x := env.num.sub (env.num.sub page.width textWidth) (env.num.lit 16)
              y := env.num.sub page.height (env.num.lit 24)
              size := env.num.lit 12
              font := { doc := w.nextDoc, program := customFont }
              color := rgb (env.num.lit 0) (env.num.lit 0) (env.num.lit 0) }) ∧
      ∀ st', (labelName env existingPdfBytes customFont nameList i st w).1 = Except.ok st' →
        Event.embedFont w.nextDoc customFont ∈ evs ∧
        (drawCalls evs).length = template.length ∧
        ∀ (j : Nat) (page : ParsedPage Num), template[j]? = some page → ∃ textWidth,
          env.widthOfTextAtSize { doc := w.nextDoc, program := customFont } name
            (env.num.lit 12) = Except.ok textWidth ∧
          (drawCalls evs)[j]? = some (w.nextDoc, j, name,
            { x := env.num.sub (env.num.sub page.width textWidth) (env.num.lit 16)
              y := env.num.sub page.height (env.num.lit 24)
              size := env.num.lit 12
              font := { doc := w.nextDoc, program := customFont }
              color := rgb (env.num.lit 0) (env.num.lit 0) (env.num.lit 0) }) := by
  have hget : nameList.getD i "" = name := by
    rw [List.getD_eq_getElem?_getD, hname]
    rfl
  obtain ⟨evs, htr, hall⟩ := labelName_draws env existingPdfBytes customFont nameList i st w
    htemplate
  rw [hget] at hall
  refine ⟨evs, htr, ?_, ?_⟩
  · intro doc j text options hmem
    obtain ⟨h1, h2, size, tw, hsize, htw, hopt⟩ := hall _ hmem
    simp only [List.getElem?_map, Option.map_eq_some'] at hsize
    obtain ⟨page, hpage, rfl⟩ := hsize
    refine ⟨h1, h2, page, tw, hpage, htw, ?_⟩
    rw [hopt]
    simp [labelDraw, hmul]
  · intro st' hok
    have hround : labelName env existingPdfBytes customFont nameList i st w =
        (Except.ok st', (labelName env existingPdfBytes customFont nameList i st w).2) := by
      rw [← hok]
    obtain ⟨parsed, doc, copied, evs0, hload, -, -, -, -, -, -, -, -, -, htrace, -, hlen,
      hdraws⟩ := labelName_ok hround
    rw [htemplate] at hload
    cases hload
    rw [hget] at hdraws
    rw [htr] at htrace
    have hevs := List.append_cancel_left htrace
    subst hevs
    refine ⟨by simp, ?_, ?_⟩
    · simp only [drawCalls_append, List.length_append, hlen]
      simp [drawCalls]
    · intro j page hpage
      obtain ⟨tw, htw, hd⟩ := hdraws j page hpage
      refine ⟨tw, htw, ?_⟩
      have hj : j < (drawCalls evs0).length := by
        rw [hlen]
        exact getElem?_isSome_lt hpage
      simp only [drawCalls_append]
      have h0 : drawCalls
          ([Event.load existingPdfBytes, Event.embedFont w.nextDoc customFont] :
            List (Event Num)) = [] := by
        simp [drawCalls]
      rw [h0, List.nil_append, List.append_assoc, List.append_assoc,
        List.getElem?_append_left hj, hd]
      simp [labelDraw, hmul]

theorem label_draw_parameters_witness :
    intOps.mul (intOps.lit 12) (intOps.lit 2) = intOps.lit 24 ∧
      sampleEnv.load [37, 80, 68, 70] = Except.ok sampleTemplate ∧
      ["Alice", "Bob"][1]? = some "Bob" ∧
      (labelName sampleEnv [37, 80, 68, 70] [0, 1] ["Alice", "Bob"] 1 sampleRoundState
        sampleRoundStart).1 = Except.ok sampleRoundResult ∧
      ∃ evs,
        (labelName sampleEnv [37, 80, 68, 70] [0, 1] ["Alice", "Bob"] 1 sampleRoundState
          sampleRoundStart).2.trace = sampleRoundStart.trace ++ evs ∧
        (∀ doc j text options, Event.drawText doc j text options ∈ evs →
          doc = sampleRoundStart.nextDoc ∧ text = "Bob" ∧
          ∃ page textWidth, sampleTemplate[j]? = some page ∧
            sampleEnv.widthOfTextAtSize { doc := sampleRoundStart.nextDoc, program := [0, 1] }
              "Bob" (sampleEnv.num.lit 12) = Except.ok textWidth ∧
            options =
              { x := sampleEnv.num.sub (sampleEnv.num.sub page.width textWidth)
                  (sampleEnv.num.lit 16)
                y := sampleEnv.num.sub page.height (sampleEnv.num.lit 24)
                size := sampleEnv.num.lit 12
                font := { doc := sampleRoundStart.nextDoc, program := [0, 1] }
                color := rgb (sampleEnv.num.lit 0) (sampleEnv.num.lit 0)
                  (sampleEnv.num.lit 0) }) ∧
        ∀ st', (labelName sampleEnv [37, 80, 68, 70] [0, 1] ["Alice", "Bob"] 1
            sampleRoundState sampleRoundStart).1 = Except.ok st' →
          Event.embedFont sampleRoundStart.nextDoc [0, 1] ∈ evs ∧
          (drawCalls evs).length = sampleTemplate.length ∧
          ∀ (j : Nat) (page : ParsedPage Int), sampleTemplate[j]? = some page → ∃ textWidth,
            sampleEnv.widthOfTextAtSize { doc := sampleRoundStart.nextDoc, program := [0, 1] }
              "Bob" (sampleEnv.num.lit 12) = Except.ok textWidth ∧
            (drawCalls evs)[j]? = some (sampleRoundStart.nextDoc, j, "Bob",
              { x := sampleEnv.num.sub (sampleEnv.num.sub page.width textWidth)
                  (sampleEnv.num.lit 16)
                y := sampleEnv.num.sub page.height (sampleEnv.num.lit 24)
                size := sampleEnv.num.lit 12
                font := { doc := sampleRoundStart.nextDoc, program := [0, 1] }
                color := rgb (sampleEnv.num.lit 0) (sampleEnv.num.lit 0)
                  (sampleEnv.num.lit 0) }) :=
  ⟨by decide, by decide!, by decide!, by decide!,
    label_draw_parameters sampleEnv [37, 80, 68, 70] [0, 1] ["Alice", "Bob"] 1 sampleRoundState
      sampleRoundStart sampleTemplate "Bob" (by decide) (by decide!) (by decide!)⟩

/-- C4. In a run that reaches the end of the loop over the names, the page of block `i` at
position `j` of the output is template page `j` (same size, same content) with exactly one
label on it, the one for name `i`, drawn with the font of the working copy of recipient `i`;
that working copy, as it was saved, holds the same page. Nothing drawn for another recipient
is on the page, and every `load` of the run reads the same template bytes. -/
theorem stamping_is_isolated {Num : Type} (env : Env Num) (w w' : World Num)
    (st : LoopState Num) (existingPdfBytes customFont : Bytes) (nameListFile : String)
    (template : List (ParsedPage Num)) (i j : Nat) (name : String) (page : ParsedPage Num)
    (hrun : labelAll env w = (Except.ok st, w'))
    (hpdf : env.readFileSync (inputFilePath env) = Except.ok existingPdfBytes)
    (hnames : env.readFileSyncUtf8 (nameListFilePath env) = Except.ok nameListFile)
    (hfont : env.readFileSync (fontFilePath env) = Except.ok customFont)
    (htemplate : env.load existingPdfBytes = Except.ok template)
    (hname : (split nameListFile newline)[i]? = some name)
    (hpage : template[j]? = some page) :
    ∃ (label : TextDraw Num) (workingCopy : PDFDocument Num),
      st.pdfDoc.pages[i * template.length + j]? =
        some { width := page.width, height := page.height, content := page.content,
               drawn := [label] } ∧
      label.text = name ∧
      label.options.font = { doc := workingCopy.id, program := customFont } ∧
      workingCopy.id = st.pdfDoc.id + 1 + i ∧
      workingCopy.fonts = [label.options.font] ∧
      Event.save workingCopy ∈ w'.trace ∧
      workingCopy.pages[j]? =
        some { width := page.width, height := page.height, content := page.content,
               drawn := [label] } ∧
      ∀ evs, w'.trace = w.trace ++ evs → ∀ bytes, Event.load bytes ∈ evs →
        bytes = existingPdfBytes := by
  obtain ⟨hid, doc, hsave, hdoc, hfonts, -, hpages⟩ :=
    labelAll_block hrun hpdf hnames hfont htemplate hname
  obtain ⟨tw, -, hq1, hq2⟩ := hpages j page hpage
  refine ⟨labelDraw env { doc := w.nextDoc + 1 + i, program := customFont } name page.width
    page.height tw, doc, by simpa [stamp, PDFPage.ofParsed] using hq2, rfl, ?_, ?_, ?_, hsave,
    by simpa [stamp, PDFPage.ofParsed] using hq1, ?_⟩
  · simp [labelDraw, hdoc]
  · rw [hdoc, hid]
  · simp [labelDraw, hfonts]
  · intro evs hevs bytes hmem
    obtain ⟨evs0, h1, h2⟩ := labelAll_emits env w
    rw [hrun] at h1
    simp only at h1
    rw [hevs] at h1
    have heq := List.append_cancel_left h1
    subst heq
    have hb := h2 _ hmem
    have htb : templateBytes env = existingPdfBytes := by simp [templateBytes, hpdf]
    rw [htb] at hb
    exact hb

theorem stamping_is_isolated_witness :
    labelAll sampleEnv (initialWorld Int) = (Except.ok sampleState, sampleWorld) ∧
      ∃ (label : TextDraw Int) (workingCopy : PDFDocument Int),
        sampleState.pdfDoc.pages[1 * sampleTemplate.length + 1]? =
          some { width := 300, height := 400, content := [2], drawn := [label] } ∧
        label.text = "Bob" ∧
        label.options.font = { doc := workingCopy.id, program := [0, 1] } ∧
        workingCopy.id = sampleState.pdfDoc.id + 1 + 1 ∧
        workingCopy.fonts = [label.options.font] ∧
        Event.save workingCopy ∈ sampleWorld.trace ∧
        workingCopy.pages[1]? =
          some { width := 300, height := 400, content := [2], drawn := [label] } ∧
        ∀ evs, sampleWorld.trace = (initialWorld Int).trace ++ evs →
          ∀ bytes, Event.load bytes ∈ evs → bytes = [37, 80, 68, 70] :=
  ⟨by decide!,
    stamping_is_isolated sampleEnv (initialWorld Int) sampleWorld sampleState [37, 80, 68, 70]
      [0, 1] sampleNames sampleTemplate 1 1 "Bob" { width := 300, height := 400, content := [2] }
      (by decide!) (by decide!) (by decide!) (by decide!) (by decide!) (by decide!)
      (by decide!)⟩

theorem isMainEvent_of_isBuildEvent {Num : Type} {bytes : Bytes} {indices : List (Option Nat)}
    (ev : Event Num) (h : isBuildEvent bytes indices ev) : isMainEvent bytes indices ev := by
  cases ev <;> first | exact True.intro | exact h

theorem writeOutputFile_emits {Num : Type} {P : Event Num → Prop} (env : Env Num)
    (path : String) (data : Bytes) (h : P (Event.writeFileSync path data)) (w : World Num) :
    Emits P (writeOutputFile env path data) w := by
  unfold writeOutputFile
  refine emits_tryCatch ?_ fun _ _ _ => emits_throwJS _ _
  exact emits_bind (emits_emit h _) fun _ _ _ => emits_ofFailure _ _

theorem main_emits {Num : Type} (env : Env Num) (w : World Num) :
    Emits (isMainEvent (templateBytes env) (templateIndices env (templateBytes env)))
      (main env) w := by
  unfold main
  refine emits_tryCatch ?_ fun e _ _ => ?_
  · unfold mainTry
    refine emits_bind (emits_mono (buildOutput_emits env w) isMainEvent_of_isBuildEvent)
      fun _ _ _ => ?_
    refine emits_bind ⟨[Event.progressStop], rfl, by simp [isMainEvent]⟩ fun _ _ _ => ?_
    refine emits_bind (emits_emit (by simp [isMainEvent, isBuildEvent]) _) fun _ _ _ => ?_
    refine emits_bind (emits_emit (by simp [isMainEvent, isBuildEvent]) _) fun _ _ _ => ?_
    refine emits_bind (writeOutputFile_emits _ _ _ (by simp [isMainEvent]) _) fun _ _ _ => ?_
    refine emits_bind (emits_emit (by simp [isMainEvent, isBuildEvent]) _) fun _ _ _ => ?_
    refine emits_bind (emits_emit (by simp [isMainEvent, isBuildEvent]) _) fun _ _ _ => ?_
    exact emits_emit (by simp [isMainEvent, isBuildEvent]) _
  · refine emits_bind (emits_emit (by simp [isMainEvent]) _) fun _ _ _ => ?_
    exact emits_emit (by simp [isMainEvent]) _

theorem main_of_mainTry_error {Num : Type} {env : Env Num} {w w1 : World Num} {e : JSError}
    (h : mainTry env w = (Except.error e, w1)) :
    main env w =
      (Except.ok (),
        { w1 with
          trace := w1.trace ++ [Event.consoleError e.name, Event.consoleError e.message] }) := by
  unfold main tryCatch
  rw [h]
  simp [consoleError, bind_apply, Eff.bind, emit_apply]

theorem mainTry_of_buildOutput_error {Num : Type} {env : Env Num} {w w1 : World Num}
    {e : JSError} (h : buildOutput env w = (Except.error e, w1)) :
    mainTry env w = (Except.error e, w1) := by
  unfold mainTry
  exact bind_of_error _ h

/-- C6. When a step before the output is written fails, that is when lines 73 to 145 of
`main` (reading the inputs, loading the template, embedding the font, measuring, drawing,
saving a working copy, copying pages, serialising the output) end with an error, `main`
never calls `writeFileSync`: no event of the run is a write. -/
theorem no_output_on_failure {Num : Type} (env : Env Num) (w w1 : World Num) (e : JSError)
    (hfail : buildOutput env w = (Except.error e, w1)) :
    ∃ evs, (main env w).2.trace = w.trace ++ evs ∧
      ∀ path data, Event.writeFileSync path data ∉ evs := by
  obtain ⟨evs, h1, h2⟩ := buildOutput_emits env w
  rw [hfail] at h1
  simp only at h1
  refine ⟨evs ++ [Event.consoleError e.name, Event.consoleError e.message], ?_, ?_⟩
  · rw [main_of_mainTry_error (mainTry_of_buildOutput_error hfail)]
    simp [h1]
  · intro path data hmem
    rcases List.mem_append.mp hmem with hm | hm
    · exact h2 _ hm
    · simp at hm

theorem no_output_on_failure_witness :
    buildOutput failingEnv (initialWorld Int) = (Except.error mergeError, failingWorld) ∧
      ∃ evs, (main failingEnv (initialWorld Int)).2.trace = (initialWorld Int).trace ++ evs ∧
        ∀ path data, Event.writeFileSync path data ∉ evs :=
  ⟨by decide!,
    no_output_on_failure failingEnv (initialWorld Int) failingWorld mergeError (by decide!)⟩

theorem forNames_fails {Num : Type} {env : Env Num} {existingPdfBytes customFont : Bytes}
    {nameList : List String} {e : JSError} :
    ∀ (k later i : Nat) (st st1 : LoopState Num) (w w1 w2 : World Num),
      forNames env existingPdfBytes customFont nameList k i st w = (Except.ok st1, w1) →
      labelName env existingPdfBytes customFont nameList (i + k) st1 w1 = (Except.error e, w2) →
      forNames env existingPdfBytes customFont nameList (k + 1 + later) i st w =
        (Except.error e, w2) := by
  intro k
  induction k with
  | zero =>
    intro later i st st1 w w1 w2 h1 h2
    simp only [forNames, pure_apply, Prod.mk.injEq, Except.ok.injEq] at h1
    obtain ⟨rfl, rfl⟩ := h1
    have e1 : 0 + 1 + later = later + 1 := by omega
    rw [e1, forNames]
    exact bind_of_error _ h2
  | succ k ih =>
    intro later i st st1 w w1 w2 h1 h2
    simp only [forNames, bind_eq_ok] at h1
    obtain ⟨sta, wa, ha, hb⟩ := h1
    have e1 : k + 1 + 1 + later = (k + 1 + later) + 1 := by omega
    have e2 : i + (k + 1) = i + 1 + k := by omega
    rw [e2] at h2
    rw [e1, forNames, bind_of_ok _ ha]
    exact ih later (i + 1) sta st1 wa w1 w2 hb h2

theorem labelAll_eq {Num : Type} {env : Env Num} {w : World Num}
    {existingPdfBytes customFont : Bytes} {nameListFile : String}
    (hpdf : env.readFileSync (inputFilePath env) = Except.ok existingPdfBytes)
    (hnames : env.readFileSyncUtf8 (nameListFilePath env) = Except.ok nameListFile)
    (hfont : env.readFileSync (fontFilePath env) = Except.ok customFont) :
    labelAll env w =
      forNames env existingPdfBytes customFont (split nameListFile newline)
        (split nameListFile newline).length 0
        { pdfDoc := { id := w.nextDoc, fontkit := false, fonts := [], pages := [] },
          indices := none }
        (loopStart env (split nameListFile newline).length w) := by
  unfold labelAll
  rw [bind_of_ok _ (printAppInfo_apply w),
    bind_of_ok _ (readInputFile_eq_ok.mpr ⟨hpdf, rfl⟩),
    bind_of_ok _ (readNameListFile_eq_ok.mpr ⟨hnames, rfl⟩),
    bind_of_ok _ (readFontFile_eq_ok.mpr ⟨hfont, rfl⟩),
    bind_of_ok _ (create_apply _),
    bind_of_ok _ (progressBarStart_apply _ _ _ _)]
  simp [loopStart]

/-- C7, counterexample. In the failing sample run page copying fails for the second name with
`mergeError`, a failure during appending, and `main` still returns normally: its caller
receives no failure, so no failure carrying the kind of the error either. -/
theorem failure_not_received_by_caller :
    buildOutput failingEnv (initialWorld Int) = (Except.error mergeError, failingWorld) ∧
      (main failingEnv (initialWorld Int)).1 = Except.ok () := by
  decide!

/-- C7, amended. When the three files have been read and, after `k` completed rounds of
the loop over the names, round `k` fails with error `e`, the run is aborted there: the world
at the end of `main` is the world at the failure plus two `console.error` lines, the name and
the message of `e`. So no later recipient is processed and nothing is written; the error is
caught by `main`, which returns normally, so its caller receives no failure. -/
theorem failure_aborts_and_is_printed {Num : Type} (env : Env Num) (w w1 w2 : World Num)
    (existingPdfBytes customFont : Bytes) (nameListFile : String) (k : Nat)
    (st1 : LoopState Num) (e : JSError)
    (hpdf : env.readFileSync (inputFilePath env) = Except.ok existingPdfBytes)
    (hnames : env.readFileSyncUtf8 (nameListFilePath env) = Except.ok nameListFile)
    (hfont : env.readFileSync (fontFilePath env) = Except.ok customFont)
    (hk : k < (split nameListFile newline).length)
    (hdone : forNames env existingPdfBytes customFont (split nameListFile newline) k 0
      { pdfDoc := { id := w.nextDoc, fontkit := false, fonts := [], pages := [] },
        indices := none }
      (loopStart env (split nameListFile newline).length w) = (Except.ok st1, w1))
    (hfail : labelName env existingPdfBytes customFont (split nameListFile newline) k st1 w1 =
      (Except.error e, w2)) :
    main env w =
      (Except.ok (),
        { w2 with
          trace := w2.trace ++ [Event.consoleError e.name, Event.consoleError e.message] }) := by
  have hN : (split nameListFile newline).length =
      k + 1 + ((split nameListFile newline).length - (k + 1)) := by omega
  have hloop := forNames_fails k ((split nameListFile newline).length - (k + 1)) 0 _ st1 _ w1 w2
    hdone (by simpa using hfail)
  rw [← hN] at hloop
  have hall : labelAll env w = (Except.error e, w2) := by
    rw [labelAll_eq hpdf hnames hfont]
    exact hloop
  have hbuild : buildOutput env w = (Except.error e, w2) := by
    unfold buildOutput
    exact bind_of_error _ hall
  exact main_of_mainTry_error (mainTry_of_buildOutput_error hbuild)

theorem failure_aborts_and_is_printed_witness :
    1 < (split sampleNames newline).length ∧
      forNames failingEnv [37, 80, 68, 70] [0, 1] (split sampleNames newline) 1 0
        { pdfDoc := { id := (initialWorld Int).nextDoc, fontkit := false, fonts := [],
                      pages := [] },
          indices := none }
        (loopStart failingEnv (split sampleNames newline).length (initialWorld Int)) =
        (Except.ok failingRoundState, failingRoundStart) ∧
      labelName failingEnv [37, 80, 68, 70] [0, 1] (split sampleNames newline) 1
        failingRoundState failingRoundStart = (Except.error mergeError, failingWorld) ∧
      main failingEnv (initialWorld Int) =
        (Except.ok (),
          { failingWorld with
            trace := failingWorld.trace ++
              [Event.consoleError mergeError.name, Event.consoleError mergeError.message] }) :=
  ⟨by decide!, by decide!, by decide!,
    failure_aborts_and_is_printed failingEnv (initialWorld Int) failingRoundStart failingWorld
      [37, 80, 68, 70] [0, 1] sampleNames 1 failingRoundState mergeError (by decide!)
      (by decide!) (by decide!) (by decide!) (by decide!) (by decide!)⟩

theorem increments_append {Num : Type} (a b : List (Event Num)) :
    increments (a ++ b) = increments a + increments b := by
  simp [increments, List.filter_append]

theorem increments_of_isPageEvent {Num : Type} :
    ∀ (evs : List (Event Num)), (∀ ev ∈ evs, isPageEvent ev) → increments evs = 0 := by
  intro evs
  induction evs with
  | nil => intro _; rfl
  | cons ev evs ih =>
    intro h
    have h1 : isPageEvent ev := h ev (List.mem_cons_self _ _)
    have h2 : increments evs = 0 := ih fun x hx => h x (List.mem_cons_of_mem _ hx)
    have h3 : isIncrement ev = false := by
      cases ev <;> first | rfl | exact h1.elim
    have h4 : increments (ev :: evs) = increments evs := by
      simp [increments, List.filter_cons, h3]
    rw [h4, h2]

theorem increments_replicate_addPage {Num : Type} (n doc : Nat) :
    increments (List.replicate n (Event.addPage doc : Event Num)) = 0 := by
  induction n with
  | zero => rfl
  | succ n ih =>
    rw [List.replicate_succ]
    have h4 : increments ((Event.addPage doc : Event Num) :: List.replicate n (Event.addPage doc)) =
        increments (List.replicate n (Event.addPage doc : Event Num)) := by
      simp [increments, List.filter_cons, isIncrement]
    rw [h4, ih]

theorem labelName_round {Num : Type} {env : Env Num} {existingPdfBytes customFont : Bytes}
    {nameList : List String} {i : Nat} {st st' : LoopState Num} {w w' : World Num}
    {template : List (ParsedPage Num)}
    (h : labelName env existingPdfBytes customFont nameList i st w = (Except.ok st', w'))
    (htemplate : env.load existingPdfBytes = Except.ok template) :
    ∃ evs, w'.trace = w.trace ++ evs ++
        List.replicate template.length (Event.addPage st.pdfDoc.id) ++
        [Event.progressIncrement] ∧
      increments evs = 0 ∧
      w'.progressBar = w.progressBar.increment := by
  obtain ⟨parsed, doc, copied, evs, hload, -, -, -, -, -, -, -, -, hbar, htrace, hpage, -⟩ :=
    labelName_ok h
  rw [htemplate] at hload
  cases hload
  refine ⟨[Event.load existingPdfBytes, Event.embedFont w.nextDoc customFont] ++ evs ++
    [Event.save doc, Event.copyPages st.pdfDoc.id w.nextDoc
      (st.indices.getD (indexArray template.length))], ?_, ?_, hbar⟩
  · rw [htrace]
    simp
  · rw [increments_append, increments_append, increments_of_isPageEvent evs hpage]
    rfl

theorem forNames_increments {Num : Type} {env : Env Num} {existingPdfBytes customFont : Bytes}
    {nameList : List String} :
    ∀ (remaining i : Nat) (st st' : LoopState Num) (w w' : World Num),
      forNames env existingPdfBytes customFont nameList remaining i st w = (Except.ok st', w') →
      increments w'.trace = increments w.trace + remaining := by
  intro remaining
  induction remaining with
  | zero =>
    intro i st st' w w' h
    simp only [forNames, pure_apply, Prod.mk.injEq, Except.ok.injEq] at h
    obtain ⟨rfl, rfl⟩ := h
    rfl
  | succ r ih =>
    intro i st st' w w' h
    simp only [forNames, bind_eq_ok] at h
    obtain ⟨st1, w1, h1, h2⟩ := h
    obtain ⟨parsed, -, -, -, hload, -⟩ := labelName_ok h1
    obtain ⟨evs, htrace, hzero, -⟩ := labelName_round h1 hload
    have h3 := ih _ _ _ _ _ h2
    have h4 : increments w1.trace = increments w.trace + 1 := by
      rw [htrace, increments_append, increments_append, increments_append, hzero,
        increments_replicate_addPage]
      rfl
    rw [h3, h4]
    omega

theorem increment_iterate_active (bar : ProgressBar) (h : bar.isActive = true) :
    ∀ k : Nat, ProgressBar.increment^[k] bar = { bar with value := bar.value + k } := by
  intro k
  induction k with
  | zero => rfl
  | succ k ih =>
    rw [Function.iterate_succ_apply', ih]
    simp [ProgressBar.increment, h, Nat.add_assoc]

theorem increment_iterate_inactive (bar : ProgressBar) (h : bar.isActive = false) :
    ∀ k : Nat, ProgressBar.increment^[k] bar = bar := by
  intro k
  induction k with
  | zero => rfl
  | succ k ih =>
    rw [Function.iterate_succ_apply', ih]
    simp [ProgressBar.increment, h]

/-- C9, counterexample. In the sample run with a progress bar whose stream is not a terminal
the loop completes for both names, and the bar still has the state in which it was created:
total 100 and value 0, not total 2 and value 2. -/
theorem progress_ignored_without_terminal :
    labelAll pipedEnv (initialWorld Int) = (Except.ok sampleState, pipedWorld) ∧
      (split sampleNames newline).length = 2 ∧
      pipedWorld.progressBar = { total := 100, value := 0, isActive := false } ∧
      pipedWorld.progressBar.value ≠ (split sampleNames newline).length := by
  decide!

/-- C9, amended. Progress is reported once per completed recipient. In a run that reaches
the end of the loop over the names, `start(N, 0)` is called before the loop and the loop
calls `increment` exactly `N` times; after any `k` completed rounds `increment` has been
called `k` more times and the output has grown by `k * P` pages; in every completed round
`increment` is called exactly once, as the last call, right after the `P` calls of `addPage`.
When the stream of the bar is a terminal, the bar ends with total `N` and value `N`, and
on a started bar `k` completed rounds add `k` to the value; when it is not a terminal, a bar
that was not started keeps its state. -/
theorem progress_once_per_recipient {Num : Type} (env : Env Num) (w w' : World Num)
    (st : LoopState Num) (existingPdfBytes : Bytes) (nameListFile : String)
    (template : List (ParsedPage Num))
    (hrun : labelAll env w = (Except.ok st, w'))
    (hpdf : env.readFileSync (inputFilePath env) = Except.ok existingPdfBytes)
    (hnames : env.readFileSyncUtf8 (nameListFilePath env) = Except.ok nameListFile)
    (htemplate : env.load existingPdfBytes = Except.ok template) :
    (∃ post, w'.trace = w.trace ++ appInfoLines ++
        [Event.readFileSync (inputFilePath env), Event.readFileSync (nameListFilePath env),
         Event.readFileSync (fontFilePath env), Event.create w.nextDoc,
         Event.progressStart (split nameListFile newline).length 0] ++ post ∧
      increments post = (split nameListFile newline).length) ∧
    (env.isTTY = true →
      w'.progressBar =
        { total := (split nameListFile newline).length
          value := (split nameListFile newline).length
          isActive := true }) ∧
    (env.isTTY = false → w.progressBar.isActive = false → w'.progressBar = w.progressBar) ∧
    (∀ (customFont : Bytes) (nameList : List String) (k i : Nat) (st0 st1 : LoopState Num)
        (w0 w1 : World Num),
      (st0.indices = none ∨ st0.indices = some (indexArray template.length)) →
      forNames env existingPdfBytes customFont nameList k i st0 w0 = (Except.ok st1, w1) →
      increments w1.trace = increments w0.trace + k ∧
      st1.pdfDoc.pages.length = st0.pdfDoc.pages.length + k * template.length ∧
      (w0.progressBar.isActive = true →
        w1.progressBar = { w0.progressBar with value := w0.progressBar.value + k })) ∧
    (∀ (customFont : Bytes) (nameList : List String) (i : Nat) (st0 st1 : LoopState Num)
        (w0 w1 : World Num),
      labelName env existingPdfBytes customFont nameList i st0 w0 = (Except.ok st1, w1) →
      ∃ evs, w1.trace = w0.trace ++ evs ++
          List.replicate template.length (Event.addPage st0.pdfDoc.id) ++
          [Event.progressIncrement] ∧
        increments evs = 0 ∧
        (w0.progressBar.isActive = true →
          w1.progressBar = { w0.progressBar with value := w0.progressBar.value + 1 })) := by
  obtain ⟨bytes, text, font, h1, h2, -, h4⟩ := labelAll_ok hrun
  rw [hpdf] at h1
  cases h1
  rw [hnames] at h2
  cases h2
  obtain ⟨-, -, -, -, -, hbar, -, ⟨post, hpost⟩⟩ :=
    forNames_ok htemplate _ _ _ _ _ _ h4 (Or.inl rfl)
  have hinc := forNames_increments _ _ _ _ _ _ h4
  refine ⟨⟨post, ?_, ?_⟩, ?_, ?_, ?_, ?_⟩
  · rw [hpost]
    simp [loopStart]
  · rw [hpost, increments_append] at hinc
    omega
  · intro htty
    rw [hbar]
    simp only [loopStart, ProgressBar.start, htty, if_true]
    rw [increment_iterate_active _ rfl]
    simp
  · intro htty hidle
    rw [hbar]
    simp only [loopStart, ProgressBar.start, htty]
    exact increment_iterate_inactive _ hidle _
  · intro customFont nameList k i st0 st1 w0 w1 hix hloop
    obtain ⟨-, hlen, -, -, -, hb, -⟩ := forNames_ok htemplate _ _ _ _ _ _ hloop hix
    refine ⟨forNames_increments _ _ _ _ _ _ hloop, hlen, ?_⟩
    intro hactive
    rw [hb, increment_iterate_active _ hactive]
  · intro customFont nameList i st0 st1 w0 w1 hround
    obtain ⟨evs, h5, h6, h7⟩ := labelName_round hround htemplate
    refine ⟨evs, h5, h6, ?_⟩
    intro hactive
    rw [h7]
    simp [ProgressBar.increment, hactive]

theorem progress_once_per_recipient_witness :
    labelAll sampleEnv (initialWorld Int) = (Except.ok sampleState, sampleWorld) ∧
      sampleEnv.isTTY = true ∧
      sampleWorld.progressBar = { total := 2, value := 2, isActive := true } ∧
      labelName sampleEnv [37, 80, 68, 70] [0, 1] ["Alice", "Bob"] 1 sampleRoundState
        sampleRoundStart = (Except.ok sampleRoundResult, sampleRoundEnd) ∧
      ∃ evs, sampleRoundEnd.trace = sampleRoundStart.trace ++ evs ++
          List.replicate sampleTemplate.length (Event.addPage sampleRoundState.pdfDoc.id) ++
          [Event.progressIncrement] ∧
        increments evs = 0 ∧
        (sampleRoundStart.progressBar.isActive = true →
          sampleRoundEnd.progressBar =
            { sampleRoundStart.progressBar with
              value := sampleRoundStart.progressBar.value + 1 }) :=
  ⟨by decide!, by decide!, by decide!, by decide!,
    (progress_once_per_recipient sampleEnv (initialWorld Int) sampleWorld sampleState
      [37, 80, 68, 70] sampleNames sampleTemplate (by decide!) (by decide!) (by decide!)
      (by decide!)).2.2.2.2 [0, 1] ["Alice", "Bob"] 1 sampleRoundState sampleRoundResult
      sampleRoundStart sampleRoundEnd (by decide!)⟩

/-- C10. The index array passed to `copyPages` is computed in the round that finds `indices`
still `null`, as `[0, 1, ..., P - 1]` for `P` the page count of that round's working copy, and
a round that finds an array keeps it (an empty array included, since every array is truthy).
Every working copy has the `P` pages of the template, so in every run of `main`, whatever its
outcome, each call of `copyPages` receives `[0, ..., pageCount - 1]` for the page count of the
working copy it copies from; this holds for `P = 0` as well. -/
theorem indices_computed_once {Num : Type} (env : Env Num) (existingPdfBytes : Bytes)
    (template : List (ParsedPage Num))
    (hpdf : env.readFileSync (inputFilePath env) = Except.ok existingPdfBytes)
    (htemplate : env.load existingPdfBytes = Except.ok template) :
    (∀ w : World Num, ∃ evs, (main env w).2.trace = w.trace ++ evs ∧
      ∀ dst src ix, Event.copyPages dst src ix ∈ evs →
        ix = (List.range template.length).map some) ∧
    (∀ (customFont : Bytes) (nameList : List String) (i : Nat) (st st' : LoopState Num)
        (w w' : World Num),
      labelName env existingPdfBytes customFont nameList i st w = (Except.ok st', w') →
      (st.indices = none → st'.indices = some ((List.range template.length).map some)) ∧
      (∀ ix, st.indices = some ix → st'.indices = some ix) ∧
      ∃ (tempPdfDoc : PDFDocument Num) (ix : List (Option Nat)),
        st'.indices = some ix ∧ Event.save tempPdfDoc ∈ w'.trace ∧
        tempPdfDoc.getPageCount = template.length ∧
        Event.copyPages st.pdfDoc.id tempPdfDoc.id ix ∈ w'.trace) := by
  have htb : templateBytes env = existingPdfBytes := by simp [templateBytes, hpdf]
  have hti : templateIndices env existingPdfBytes = indexArray template.length := by
    simp [templateIndices, htemplate]
  constructor
  · intro w
    obtain ⟨evs, h1, h2⟩ := main_emits env w
    refine ⟨evs, h1, ?_⟩
    intro dst src ix hmem
    have h3 := h2 _ hmem
    rw [htb, hti] at h3
    exact h3
  · intro customFont nameList i st st' w w' hround
    obtain ⟨parsed, doc, copied, evs, hload, hid, -, hlen, -, -, hidx, -, -, -, htrace, -⟩ :=
      labelName_ok hround
    rw [htemplate] at hload
    cases hload
    refine ⟨?_, ?_, doc, _, hidx, ?_, hlen, ?_⟩
    · intro h0
      rw [hidx, h0]
      rfl
    · intro ix h0
      rw [hidx, h0]
      rfl
    · rw [htrace]
      simp
    · rw [htrace, hid]
      simp

theorem indices_computed_once_witness :
    sampleEnv.readFileSync (inputFilePath sampleEnv) = Except.ok [37, 80, 68, 70] ∧
      sampleEnv.load [37, 80, 68, 70] = Except.ok sampleTemplate ∧
      (∀ w : World Int, ∃ evs, (main sampleEnv w).2.trace = w.trace ++ evs ∧
        ∀ dst src ix, Event.copyPages dst src ix ∈ evs →
          ix = (List.range sampleTemplate.length).map some) :=
  ⟨by decide!, by decide!,
    (indices_computed_once sampleEnv [37, 80, 68, 70] sampleTemplate (by decide!)
      (by decide!)).1⟩

/-! ## Runs in which no library call fails -/

theorem labelPage_succeeds {Num : Type} {env : Env Num} (font : PDFFont) (name : String)
    (j : Nat) (doc : PDFDocument Num) (w : World Num) (p : PDFPage Num)
    (hwidth : ∀ f t s, ∃ tw, env.widthOfTextAtSize f t s = Except.ok tw)
    (hdraw : ∀ d k q t, env.drawText d k q t = none)
    (hp : doc.pages[j]? = some p) :
    ∃ doc' w', labelPage env font name j doc w = (Except.ok doc', w') := by
  obtain ⟨tw, htw⟩ := hwidth font name (env.num.lit 12)
  unfold labelPage
  simp only [hp, PDFFont.widthOfTextAtSize, PDFPage.drawText, bind_apply, Eff.bind, emit_apply,
    ofExcept_apply, htw, hdraw, ofFailure_none, pure_apply]
  exact ⟨_, _, rfl⟩

theorem forPages_succeeds {Num : Type} (env : Env Num) (font : PDFFont) (name : String)
    (hwidth : ∀ f t s, ∃ tw, env.widthOfTextAtSize f t s = Except.ok tw)
    (hdraw : ∀ d k q t, env.drawText d k q t = none) :
    ∀ (remaining j : Nat) (doc : PDFDocument Num) (w : World Num),
      j + remaining ≤ doc.pages.length →
      ∃ doc' w', forPages env font name remaining j doc w = (Except.ok doc', w') := by
  intro remaining
  induction remaining with
  | zero => intro j doc w _; exact ⟨doc, w, rfl⟩
  | succ r ih =>
    intro j doc w hle
    have hj : j < doc.pages.length := by omega
    obtain ⟨doc1, w1, h1⟩ :=
      labelPage_succeeds font name j doc w doc.pages[j] hwidth hdraw
        (List.getElem?_eq_getElem hj)
    obtain ⟨p, tw, -, -, hdoc, -⟩ := labelPage_ok h1
    have hlen : doc1.pages.length = doc.pages.length := by
      rw [hdoc]
      simp
    obtain ⟨doc2, w2, h2⟩ := ih (j + 1) doc1 w1 (by omega)
    refine ⟨doc2, w2, ?_⟩
    rw [forPages, bind_of_ok _ h1]
    exact h2

theorem labelName_succeeds {Num : Type} {env : Env Num} (existingPdfBytes customFont : Bytes)
    (nameList : List String) (i : Nat) (st : LoopState Num) (w : World Num)
    {template : List (ParsedPage Num)}
    (htemplate : env.load existingPdfBytes = Except.ok template)
    (hloadok : ∀ n bytes, env.loadFailure n bytes = none)
    (hembed : ∀ doc font, env.embedFont doc font = none)
    (hwidth : ∀ f t s, ∃ tw, env.widthOfTextAtSize f t s = Except.ok tw)
    (hdraw : ∀ d k q t, env.drawText d k q t = none)
    (hsave : ∀ doc, ∃ bytes, env.save doc = Except.ok bytes)
    (hcopy : ∀ dst src ix, env.copyPages dst src ix = none)
    (hadd : ∀ doc page, env.addPage doc page = none)
    (hix : st.indices = none ∨ st.indices = some (indexArray template.length)) :
    ∃ st' w', labelName env existingPdfBytes customFont nameList i st w =
      (Except.ok st', w') := by
  obtain ⟨doc2, w3, h3⟩ := forPages_succeeds env
    { doc := w.nextDoc, program := customFont } (nameList.getD i "") hwidth hdraw
    template.length 0
    { id := w.nextDoc, fontkit := true,
      fonts := [{ doc := w.nextDoc, program := customFont }],
      pages := template.map PDFPage.ofParsed }
    { nextDoc := w.nextDoc + 1, progressBar := w.progressBar,
      trace := w.trace ++ [Event.load existingPdfBytes] ++
        [Event.embedFont w.nextDoc customFont] }
    (by simp)
  obtain ⟨-, -, -, hlen, -⟩ := forPages_ok _ _ _ _ _ _ h3
  simp only [List.length_map] at hlen
  obtain ⟨bytes, hbytes⟩ := hsave doc2
  have hidx : (match st.indices with
      | none => fillIndices template.length 0 (newArray template.length)
      | some indices => indices) = indexArray template.length := by
    rcases hix with h | h <;> simp [h, fillIndices_newArray]
  have hsel : selectPages doc2.pages (indexArray template.length) = some doc2.pages := by
    rw [← hlen]
    exact selectPages_indexArray _
  unfold labelName
  rw [bind_of_ok _ (load_eq_ok.mpr ⟨hloadok _ _, template, htemplate, rfl, rfl⟩)]
  simp only [PDFDocument.registerFontkit, PDFDocument.getPageCount, List.length_map,
    List.nil_append]
  rw [bind_of_ok _ (embedFont_eq_ok.mpr ⟨hembed _ _, rfl, rfl, rfl⟩)]
  simp only [List.nil_append, List.length_map]
  rw [bind_of_ok _ h3, bind_of_ok _ (save_eq_ok.mpr ⟨hbytes, rfl⟩), hidx,
    bind_of_ok _ (copyPages_eq_ok.mpr ⟨hcopy _ _ _, hsel, rfl⟩),
    bind_of_ok _ (addPages_apply _ _ hadd _ _ _ _),
    bind_of_ok _ (progressBarIncrement_apply _)]
  exact ⟨_, _, rfl⟩

theorem forNames_succeeds {Num : Type} {env : Env Num} (existingPdfBytes customFont : Bytes)
    (nameList : List String) {template : List (ParsedPage Num)}
    (htemplate : env.load existingPdfBytes = Except.ok template)
    (hloadok : ∀ n bytes, env.loadFailure n bytes = none)
    (hembed : ∀ doc font, env.embedFont doc font = none)
    (hwidth : ∀ f t s, ∃ tw, env.widthOfTextAtSize f t s = Except.ok tw)
    (hdraw : ∀ d k q t, env.drawText d k q t = none)
    (hsave : ∀ doc, ∃ bytes, env.save doc = Except.ok bytes)
    (hcopy : ∀ dst src ix, env.copyPages dst src ix = none)
    (hadd : ∀ doc page, env.addPage doc page = none) :
    ∀ (remaining i : Nat) (st : LoopState Num) (w : World Num),
      (st.indices = none ∨ st.indices = some (indexArray template.length)) →
      ∃ st' w', forNames env existingPdfBytes customFont nameList remaining i st w =
        (Except.ok st', w') := by
  intro remaining
  induction remaining with
  | zero => intro i st w _; exact ⟨st, w, rfl⟩
  | succ r ih =>
    intro i st w hix
    obtain ⟨st1, w1, h1⟩ := labelName_succeeds existingPdfBytes customFont nameList i st w
      htemplate hloadok hembed hwidth hdraw hsave hcopy hadd hix
    obtain ⟨hidx, -⟩ := labelName_pages h1 htemplate hix
    obtain ⟨st2, w2, h2⟩ := ih (i + 1) st1 w1 (Or.inr hidx)
    refine ⟨st2, w2, ?_⟩
    rw [forNames, bind_of_ok _ h1]
    exact h2

/-- C5. The recipient count is the number of entries of the split name list, one more than
the number of newline characters of the text, so at least one. When the files can be read,
the template can be parsed and no pdf-lib call fails, `main` raises no error of its own
in the loop, whatever the entries are: the loop completes, the output has
`(newlines + 1) * P` pages, and every entry, an empty one included, has its block of `P`
pages, each carrying that entry as its only label. -/
theorem every_entry_is_a_recipient {Num : Type} (env : Env Num) (w : World Num)
    (existingPdfBytes customFont : Bytes) (nameListFile : String)
    (template : List (ParsedPage Num))
    (hpdf : env.readFileSync (inputFilePath env) = Except.ok existingPdfBytes)
    (hnames : env.readFileSyncUtf8 (nameListFilePath env) = Except.ok nameListFile)
    (hfont : env.readFileSync (fontFilePath env) = Except.ok customFont)
    (htemplate : env.load existingPdfBytes = Except.ok template)
    (hloadok : ∀ n bytes, env.loadFailure n bytes = none)
    (hembed : ∀ doc font, env.embedFont doc font = none)
    (hwidth : ∀ f t s, ∃ tw, env.widthOfTextAtSize f t s = Except.ok tw)
    (hdraw : ∀ d k q t, env.drawText d k q t = none)
    (hsave : ∀ doc, ∃ bytes, env.save doc = Except.ok bytes)
    (hcopy : ∀ dst src ix, env.copyPages dst src ix = none)
    (hadd : ∀ doc page, env.addPage doc page = none) :
    (split nameListFile newline).length = nameListFile.data.count newline + 1 ∧
    1 ≤ (split nameListFile newline).length ∧
    ∃ st w', labelAll env w = (Except.ok st, w') ∧
      Event.progressStart (nameListFile.data.count newline + 1) 0 ∈ w'.trace ∧
      (env.isTTY = true → w'.progressBar.total = nameListFile.data.count newline + 1) ∧
      st.pdfDoc.pages.length = (nameListFile.data.count newline + 1) * template.length ∧
      ∀ (i : Nat) (name : String), (split nameListFile newline)[i]? = some name →
        ∀ (j : Nat) (page : ParsedPage Num), template[j]? = some page →
          ∃ q, st.pdfDoc.pages[i * template.length + j]? = some q ∧
            q.content = page.content ∧ q.drawn.map TextDraw.text = [name] := by
  have hcount := split_length nameListFile newline
  obtain ⟨st, w', hloop⟩ := forNames_succeeds existingPdfBytes customFont
    (split nameListFile newline) htemplate hloadok hembed hwidth hdraw hsave hcopy hadd
    (split nameListFile newline).length 0
    { pdfDoc := { id := w.nextDoc, fontkit := false, fonts := [], pages := [] },
      indices := none }
    (loopStart env (split nameListFile newline).length w) (Or.inl rfl)
  have hrun : labelAll env w = (Except.ok st, w') := by
    rw [labelAll_eq hpdf hnames hfont]
    exact hloop
  obtain ⟨-, hlen, -, -, -, hbar, -, ⟨post, hpost⟩⟩ :=
    forNames_ok htemplate _ _ _ _ _ _ hloop (Or.inl rfl)
  refine ⟨hcount, by omega, st, w', hrun, ?_, ?_, ?_, ?_⟩
  · rw [hpost, ← hcount]
    simp [loopStart]
  · intro htty
    rw [hbar, ← hcount]
    simp only [loopStart, ProgressBar.start, htty, if_true]
    rw [increment_iterate_active _ rfl]
  · rw [hlen, hcount]
    simp
  · intro i name hname j page hpage
    obtain ⟨-, doc, -, -, -, -, hpages⟩ :=
      labelAll_block hrun hpdf hnames hfont htemplate hname
    obtain ⟨tw, -, -, hq⟩ := hpages j page hpage
    exact ⟨_, hq, rfl, rfl⟩

theorem every_entry_is_a_recipient_witness :
    (split "" newline).length = 1 ∧
      (∃ text, emptyEntryEnv.readFileSyncUtf8 (nameListFilePath emptyEntryEnv) =
          Except.ok text ∧
        split text newline = ["Alice", "", "Bob", ""] ∧
        (split text newline).length = text.data.count newline + 1 ∧
        1 ≤ (split text newline).length ∧
        ∃ st w', labelAll emptyEntryEnv (initialWorld Int) = (Except.ok st, w') ∧
          Event.progressStart (text.data.count newline + 1) 0 ∈ w'.trace ∧
          (emptyEntryEnv.isTTY = true → w'.progressBar.total = text.data.count newline + 1) ∧
          st.pdfDoc.pages.length = (text.data.count newline + 1) * sampleTemplate.length ∧
          ∀ (i : Nat) (name : String), (split text newline)[i]? = some name →
            ∀ (j : Nat) (page : ParsedPage Int), sampleTemplate[j]? = some page →
              ∃ q, st.pdfDoc.pages[i * sampleTemplate.length + j]? = some q ∧
                q.content = page.content ∧ q.drawn.map TextDraw.text = [name]) :=
  ⟨by decide!, _, by decide!, by decide!,
    every_entry_is_a_recipient emptyEntryEnv (initialWorld Int) [37, 80, 68, 70] [0, 1] _
      sampleTemplate (by decide!) rfl (by decide!) (by decide!) (fun _ _ => rfl)
      (fun _ _ => rfl) (fun _ _ _ => ⟨_, rfl⟩) (fun _ _ _ _ => rfl) (fun _ => ⟨_, rfl⟩)
      (fun _ _ _ => rfl) (fun _ _ => rfl)⟩

/-! ## Rounding -/

theorem pow2_eq_zpow (e : Int) : pow2 e = (2 : ℚ) ^ e := by
  unfold pow2
  split
  · rename_i h
    have h1 : (e.toNat : Int) = e := Int.toNat_of_nonneg h
    rw [Nat.cast_pow, Nat.cast_ofNat, ← zpow_natCast, h1]
  · rename_i h
    have h1 : ((-e).toNat : Int) = -e := Int.toNat_of_nonneg (by omega)
    rw [Nat.cast_pow, Nat.cast_ofNat, ← zpow_natCast, h1, zpow_neg, one_div, inv_inv]

theorem pow2_pos (e : Int) : 0 < pow2 e := by
  rw [pow2_eq_zpow]
  positivity

theorem pow2_add (a b : Int) : pow2 (a + b) = pow2 a * pow2 b := by
  rw [pow2_eq_zpow, pow2_eq_zpow, pow2_eq_zpow, zpow_add₀ (by norm_num)]

theorem pow2_natCast (n : Nat) : pow2 (n : Int) = ((2 ^ n : Int) : ℚ) := by
  rw [pow2_eq_zpow, zpow_natCast]
  push_cast
  rfl

theorem one_le_pow2 {e : Int} (h : 0 ≤ e) : 1 ≤ pow2 e := by
  have h1 : ((e.toNat : Nat) : Int) = e := Int.toNat_of_nonneg h
  rw [← h1, pow2_eq_zpow, zpow_natCast]
  exact one_le_pow₀ (by norm_num)

theorem pow2_mono {a b : Int} (h : a ≤ b) : pow2 a ≤ pow2 b := by
  have h1 : b = a + (b - a) := by omega
  rw [h1, pow2_add]
  exact le_mul_of_one_le_right (le_of_lt (pow2_pos a)) (one_le_pow2 (by omega))

theorem log2Steps_spec :
    ∀ (fuel n : Nat), n ≤ fuel → 0 < n →
      2 ^ log2Steps fuel n ≤ n ∧ n < 2 ^ (log2Steps fuel n + 1) := by
  intro fuel
  induction fuel with
  | zero => intro n h1 h2; omega
  | succ fuel ih =>
    intro n h1 h2
    unfold log2Steps
    split
    · rename_i h
      obtain ⟨h3, h4⟩ := ih (n / 2) (by omega) (by omega)
      rw [pow_succ] at h4 ⊢
      rw [pow_succ, pow_succ]
      constructor <;> omega
    · rename_i h
      have : n = 1 := by omega
      subst this
      simp

theorem log2_spec (n : Nat) (h : 0 < n) : 2 ^ log2 n ≤ n ∧ n < 2 ^ (log2 n + 1) :=
  log2Steps_spec n n (Nat.le_refl n) h


theorem pow2_exponent_le (q : ℚ) (hq : q ≠ 0) : pow2 (exponent q) ≤ |q| := by
  unfold exponent
  split
  · assumption
  · have hn : 0 < q.num.natAbs := Int.natAbs_pos.mpr (Rat.num_ne_zero.mpr hq)
    have hd : 0 < q.den := q.den_pos
    obtain ⟨h1, -⟩ := log2_spec q.num.natAbs hn
    obtain ⟨-, h2⟩ := log2_spec q.den hd
    have habs : |q| = (q.num.natAbs : ℚ) / (q.den : ℚ) := by
      conv_lhs => rw [← Rat.num_div_den q]
      rw [abs_div, Nat.abs_cast, Nat.cast_natAbs, Int.cast_abs]
    have e1 : (log2 q.num.natAbs : Int) - (log2 q.den : Int) - 1 =
        (log2 q.num.natAbs : Int) + -((log2 q.den + 1 : Nat) : Int) := by
      push_cast
      omega
    rw [e1, pow2_add, pow2_eq_zpow, pow2_eq_zpow, zpow_neg, zpow_natCast, zpow_natCast, habs,
      ← div_eq_mul_inv]
    have h1' : ((2 : ℚ) ^ log2 q.num.natAbs) ≤ (q.num.natAbs : ℚ) := by
      exact_mod_cast h1
    have h2' : (q.den : ℚ) ≤ (2 : ℚ) ^ (log2 q.den + 1) := by
      exact_mod_cast le_of_lt h2
    have hd' : (0 : ℚ) < (q.den : ℚ) := by exact_mod_cast hd
    exact div_le_div₀ (by positivity) h1' hd' h2'

theorem floor_le_roundHalfEven (t : ℚ) : ⌊t⌋ ≤ roundHalfEven t := by
  unfold roundHalfEven
  split_ifs <;> omega

theorem roundHalfEven_le_floor_add_one (t : ℚ) : roundHalfEven t ≤ ⌊t⌋ + 1 := by
  unfold roundHalfEven
  split_ifs <;> omega

theorem le_roundHalfEven {t : ℚ} {k : Int} (h : (k : ℚ) ≤ t) : k ≤ roundHalfEven t :=
  le_trans (Int.le_floor.mpr h) (floor_le_roundHalfEven t)

theorem roundHalfEven_le {t : ℚ} {k : Int} (h : t ≤ (k : ℚ)) : roundHalfEven t ≤ k := by
  rcases eq_or_lt_of_le h with heq | hlt
  · subst heq
    unfold roundHalfEven
    simp
  · have h1 : ⌊t⌋ < k := Int.floor_lt.mpr hlt
    have h2 := roundHalfEven_le_floor_add_one t
    omega

theorem round_eq (q : ℚ) :
    Double.round q =
      if pow2 1024 ≤ |roundedValue q| then Double.infinity (decide (q < 0))
      else Double.finite (roundedValue q) := rfl

theorem ulp_pos (q : ℚ) : 0 < ulp q := pow2_pos _

theorem roundedValue_nonneg {q : ℚ} (h : 0 ≤ q) : 0 ≤ roundedValue q := by
  unfold roundedValue
  have h1 : ((0 : Int) : ℚ) ≤ q / ulp q := by
    simpa using div_nonneg h (le_of_lt (ulp_pos q))
  have h2 : (0 : Int) ≤ roundHalfEven (q / ulp q) := le_roundHalfEven h1
  have h3 : (0 : ℚ) ≤ (roundHalfEven (q / ulp q) : ℚ) := by exact_mod_cast h2
  exact mul_nonneg h3 (le_of_lt (ulp_pos q))

theorem roundedValue_nonpos {q : ℚ} (h : q ≤ 0) : roundedValue q ≤ 0 := by
  unfold roundedValue
  have h1 : q / ulp q ≤ ((0 : Int) : ℚ) := by
    simpa using div_nonpos_of_nonpos_of_nonneg h (le_of_lt (ulp_pos q))
  have h2 : roundHalfEven (q / ulp q) ≤ (0 : Int) := roundHalfEven_le h1
  have h3 : (roundHalfEven (q / ulp q) : ℚ) ≤ 0 := by exact_mod_cast h2
  exact mul_nonpos_of_nonpos_of_nonneg h3 (le_of_lt (ulp_pos q))

/-- A power of two that is at least the spacing around `q` is a multiple of the spacing:
rounding does not cross it. -/
theorem roundedValue_ge_pow2 {q : ℚ} {c : Int}
    (hc : max (exponent q) (-1022) - 52 ≤ c) (h : pow2 c ≤ q) : pow2 c ≤ roundedValue q := by
  unfold roundedValue ulp
  have hk : (0 : Int) ≤ c - (max (exponent q) (-1022) - 52) := by omega
  have hsplit : pow2 c =
      pow2 (c - (max (exponent q) (-1022) - 52)) * pow2 (max (exponent q) (-1022) - 52) := by
    rw [← pow2_add]
    congr 1
    omega
  have hnat : pow2 (c - (max (exponent q) (-1022) - 52)) =
      ((2 ^ (c - (max (exponent q) (-1022) - 52)).toNat : Int) : ℚ) := by
    rw [← pow2_natCast, Int.toNat_of_nonneg hk]
  have hu := pow2_pos (max (exponent q) (-1022) - 52)
  have h1 : ((2 ^ (c - (max (exponent q) (-1022) - 52)).toNat : Int) : ℚ) ≤
      q / pow2 (max (exponent q) (-1022) - 52) := by
    rw [le_div_iff₀ hu, ← hnat, ← hsplit]
    exact h
  have h2 := le_roundHalfEven h1
  have h3 : ((2 ^ (c - (max (exponent q) (-1022) - 52)).toNat : Int) : ℚ) ≤
      (roundHalfEven (q / pow2 (max (exponent q) (-1022) - 52)) : ℚ) := by
    exact_mod_cast h2
  rw [hsplit, hnat]
  exact mul_le_mul_of_nonneg_right h3 (le_of_lt hu)

theorem roundedValue_le_pow2 {q : ℚ} {c : Int}
    (hc : max (exponent q) (-1022) - 52 ≤ c) (h : q ≤ pow2 c) : roundedValue q ≤ pow2 c := by
  unfold roundedValue ulp
  have hk : (0 : Int) ≤ c - (max (exponent q) (-1022) - 52) := by omega
  have hsplit : pow2 c =
      pow2 (c - (max (exponent q) (-1022) - 52)) * pow2 (max (exponent q) (-1022) - 52) := by
    rw [← pow2_add]
    congr 1
    omega
  have hnat : pow2 (c - (max (exponent q) (-1022) - 52)) =
      ((2 ^ (c - (max (exponent q) (-1022) - 52)).toNat : Int) : ℚ) := by
    rw [← pow2_natCast, Int.toNat_of_nonneg hk]
  have hu := pow2_pos (max (exponent q) (-1022) - 52)
  have h1 : q / pow2 (max (exponent q) (-1022) - 52) ≤
      ((2 ^ (c - (max (exponent q) (-1022) - 52)).toNat : Int) : ℚ) := by
    rw [div_le_iff₀ hu, ← hnat, ← hsplit]
    exact h
  have h2 := roundHalfEven_le h1
  have h3 : (roundHalfEven (q / pow2 (max (exponent q) (-1022) - 52)) : ℚ) ≤
      ((2 ^ (c - (max (exponent q) (-1022) - 52)).toNat : Int) : ℚ) := by
    exact_mod_cast h2
  rw [hsplit, hnat]
  exact mul_le_mul_of_nonneg_right h3 (le_of_lt hu)


theorem round_nonneg {q : ℚ} (h : 0 ≤ q) :
    Double.le (Double.finite 0) (Double.round q) = true := by
  rw [round_eq]
  split
  · have h1 : ¬ q < 0 := not_lt.mpr h
    simp [Double.le, h1]
  · simpa [Double.le] using roundedValue_nonneg h

theorem round_nonpos {q : ℚ} (h : q ≤ 0) :
    Double.le (Double.round q) (Double.finite 0) = true := by
  rw [round_eq]
  split
  · rename_i hover
    have h1 : q < 0 := by
      rcases lt_or_eq_of_le h with hlt | heq
      · exact hlt
      · exfalso
        have h2 := roundedValue_nonneg (le_of_eq heq.symm)
        have h3 := roundedValue_nonpos h
        have h4 : roundedValue q = 0 := le_antisymm h3 h2
        rw [h4, abs_zero] at hover
        exact absurd hover (not_le.mpr (pow2_pos 1024))
    simp [Double.le, h1]
  · simpa [Double.le] using roundedValue_nonpos h

theorem pow2_lt_pow2 {a b : Int} (h : a < b) : pow2 a < pow2 b := by
  have h1 : pow2 (a + 1) ≤ pow2 b := pow2_mono (by omega)
  have h2 : pow2 (a + 1) = pow2 a * 2 := by
    rw [pow2_add]
    congr 1
  have h3 := pow2_pos a
  linarith

theorem round_ge_pow2 {q : ℚ} {c : Int} (hc : -1074 ≤ c) (hq : pow2 c ≤ q) :
    Double.le (Double.finite (pow2 c)) (Double.round q) = true := by
  have hpos : 0 < q := lt_of_lt_of_le (pow2_pos c) hq
  have hval : pow2 c ≤ roundedValue q := by
    by_cases hE : max (exponent q) (-1022) - 52 ≤ c
    · exact roundedValue_ge_pow2 hE hq
    · have hexp : pow2 (exponent q) ≤ q := by
        have := pow2_exponent_le q (ne_of_gt hpos)
        rwa [abs_of_pos hpos] at this
      have h1 : pow2 (exponent q) ≤ roundedValue q :=
        roundedValue_ge_pow2 (by omega) hexp
      have h2 : pow2 c ≤ pow2 (exponent q) := pow2_mono (by omega)
      exact le_trans h2 h1
  rw [round_eq]
  split
  · have h1 : ¬ q < 0 := not_lt.mpr (le_of_lt hpos)
    simp [Double.le, h1]
  · simpa [Double.le] using hval

theorem round_le_pow2 {q : ℚ} {c : Int} (hc : -1074 ≤ c) (hc' : c ≤ 1023) (hq : q ≤ pow2 c) :
    Double.le (Double.round q) (Double.finite (pow2 c)) = true := by
  rcases le_or_lt q 0 with hneg | hpos
  · have h0 := round_nonpos hneg
    rw [round_eq] at h0 ⊢
    split
    · rename_i hover
      simp only [hover, if_true] at h0
      simpa [Double.le] using h0
    · have h1 := roundedValue_nonpos hneg
      have h2 := pow2_pos c
      have h3 : roundedValue q ≤ pow2 c := by linarith
      simpa [Double.le] using h3
  · have hexp : pow2 (exponent q) ≤ q := by
      have := pow2_exponent_le q (ne_of_gt hpos)
      rwa [abs_of_pos hpos] at this
    have he : exponent q ≤ c := by
      by_contra hcon
      have h1 : pow2 c < pow2 (exponent q) := pow2_lt_pow2 (by omega)
      linarith
    have hval : roundedValue q ≤ pow2 c := roundedValue_le_pow2 (by omega) hq
    have hnn : 0 ≤ roundedValue q := roundedValue_nonneg (le_of_lt hpos)
    have hlt : pow2 c < pow2 1024 := pow2_lt_pow2 (by omega)
    rw [round_eq]
    split
    · rename_i hover
      rw [abs_of_nonneg hnn] at hover
      linarith
    · simpa [Double.le] using hval

theorem pow2_four : pow2 4 = 16 := by
  rw [show (4 : Int) = ((4 : Nat) : Int) from rfl, pow2_natCast]
  norm_num

theorem round_sixteen : Double.round 16 = Double.finite 16 := by
  decide!

/-- The sign of `(p - q) - 16` as JavaScript computes it: not negative when `q ≤ p - 16`, not
positive when `p - 16 < q`. -/
theorem sub_sub_sixteen_sign (p q : ℚ) :
    (q ≤ p - 16 → Double.le (Double.finite 0)
      (Double.sub (Double.sub (Double.finite p) (Double.finite q)) (Double.finite 16)) = true) ∧
    (p - 16 < q → Double.le
      (Double.sub (Double.sub (Double.finite p) (Double.finite q)) (Double.finite 16))
      (Double.finite 0) = true) := by
  have hsub : Double.sub (Double.finite p) (Double.finite q) = Double.round (p - q) := rfl
  rw [hsub]
  constructor
  · intro h
    have h1 : pow2 4 ≤ p - q := by
      rw [pow2_four]
      linarith
    have h2 := round_ge_pow2 (by norm_num) h1
    rw [pow2_four] at h2
    by_cases hover : pow2 1024 ≤ |roundedValue (p - q)|
    · have hr : Double.round (p - q) = Double.infinity (decide (p - q < 0)) := by
        rw [round_eq, if_pos hover]
      rw [hr] at h2 ⊢
      simpa [Double.sub, Double.le] using h2
    · have hr : Double.round (p - q) = Double.finite (roundedValue (p - q)) := by
        rw [round_eq, if_neg hover]
      rw [hr] at h2 ⊢
      simp only [Double.le, decide_eq_true_eq] at h2
      show Double.le (Double.finite 0) (Double.round (roundedValue (p - q) - 16)) = true
      exact round_nonneg (by linarith)
  · intro h
    have h1 : p - q ≤ pow2 4 := by
      rw [pow2_four]
      linarith
    have h2 := round_le_pow2 (by norm_num) (by norm_num) h1
    rw [pow2_four] at h2
    by_cases hover : pow2 1024 ≤ |roundedValue (p - q)|
    · have hr : Double.round (p - q) = Double.infinity (decide (p - q < 0)) := by
        rw [round_eq, if_pos hover]
      rw [hr] at h2 ⊢
      simpa [Double.sub, Double.le] using h2
    · have hr : Double.round (p - q) = Double.finite (roundedValue (p - q)) := by
        rw [round_eq, if_neg hover]
      rw [hr] at h2 ⊢
      simp only [Double.le, decide_eq_true_eq] at h2
      show Double.le (Double.round (roundedValue (p - q) - 16)) (Double.finite 0) = true
      exact round_nonpos (by linarith)

theorem double_twelve_times_two :
    doubleOps.mul (doubleOps.lit 12) (doubleOps.lit 2) = doubleOps.lit 24 := by
  decide!

/-- C8, counterexample. On a page `841.89` wide and with a label `86.892` wide, so that
`0 <= W <= Wp - 16`, the `x` that `labelPage` passes to `drawText` is `(Wp - W) - 16` as
JavaScript computes it, and `x + W` is not `Wp - 16`, neither in JavaScript arithmetic nor
exactly. On a page `16` wide and with a label `1e-20` wide, so that `W > Wp - 16`, the `x`
is `0`, which is not negative. -/
theorem label_x_not_exact_nor_negative :
    (labelX doubleEnv doubleFont "Alice" 0 doubleDoc (initialWorld Double) =
        some (Double.sub (Double.sub a4Long wideLabel) (Double.round 16)) ∧
      Double.le (Double.round 0) wideLabel = true ∧
      Double.le wideLabel (Double.sub a4Long (Double.round 16)) = true ∧
      Double.add (Double.sub (Double.sub a4Long wideLabel) (Double.round 16)) wideLabel ≠
        Double.sub a4Long (Double.round 16) ∧
      a4Long = Double.finite (7405342754466693 / 8796093022208) ∧
      wideLabel = Double.finite (1528620229771395 / 17592186044416) ∧
      Double.sub (Double.sub a4Long wideLabel) (Double.round 16) =
        Double.finite (1625073787806417 / 2199023255552) ∧
      (1528620229771395 / 17592186044416 : ℚ) ≤ 7405342754466693 / 8796093022208 - 16 ∧
      (1625073787806417 / 2199023255552 : ℚ) + 1528620229771395 / 17592186044416 ≠
        7405342754466693 / 8796093022208 - 16) ∧
    (labelX doubleEnv doubleFont "Bob" 1 doubleDoc (initialWorld Double) =
        some (Double.finite 0) ∧
      Double.lt (Double.sub (Double.round 16) (Double.round 16)) thinLabel = true ∧
      Double.lt (Double.finite 0) (Double.round 0) = false) := by
  decide!

/-- C8, amended. Over JavaScript numbers, the `x` that `labelPage` passes to `drawText` for a
page of finite width `Wp` and a name of finite measured width `W` is `(Wp - W) - 16`, each
subtraction rounded to the nearest binary64 value, and it is the `x` of the call and of the
draw recorded on the page: nothing clamps, wraps or truncates it. When `W <= Wp - 16` it
is not negative, and when `W > Wp - 16` it is not positive (it is `0` when `Wp - W` rounds
to `16`). -/
theorem label_x_rounded (env : Env Double) (font : PDFFont) (name : String) (j : Nat)
    (doc doc' : PDFDocument Double) (w w' : World Double) (page : PDFPage Double) (p q : ℚ)
    (hnum : env.num = doubleOps)
    (hpage : doc.pages[j]? = some page)
    (hwidth : page.width = Double.finite p)
    (hmeasure : env.widthOfTextAtSize font name (env.num.lit 12) = Except.ok (Double.finite q))
    (hrun : labelPage env font name j doc w = (Except.ok doc', w')) :
    ∃ label : TextDraw Double,
      doc'.pages[j]? = some { page with drawn := page.drawn ++ [label] } ∧
      label.text = name ∧
      label.options.x =
        Double.sub (Double.sub (Double.finite p) (Double.finite q)) (Double.round 16) ∧
      Event.drawText doc.id j name label.options ∈ w'.trace ∧
      (q ≤ p - 16 → Double.le (Double.finite 0) label.options.x = true) ∧
      (p - 16 < q → Double.le label.options.x (Double.finite 0) = true) := by
  obtain ⟨page0, tw, hp, htw, hdoc, hw⟩ := labelPage_ok hrun
  rw [hpage] at hp
  cases hp
  rw [hmeasure] at htw
  cases htw
  have hx : (labelDraw env font name page.width page.height (Double.finite q)).options.x =
      Double.sub (Double.sub (Double.finite p) (Double.finite q)) (Double.round 16) := by
    simp only [labelDraw, hnum, hwidth, doubleOps]
    norm_num
  obtain ⟨h1, h2⟩ := sub_sub_sixteen_sign p q
  rw [← round_sixteen, ← hx] at h1 h2
  refine ⟨labelDraw env font name page.width page.height (Double.finite q), ?_, rfl, hx, ?_,
    h1, h2⟩
  · rw [hdoc]
    simp [List.getElem?_set, getElem?_isSome_lt hpage, stamp]
  · rw [hw]
    simp

theorem label_x_rounded_witness :
    doubleEnv.num = doubleOps ∧
      doubleDoc.pages[0]? = some (PDFPage.ofParsed
        { width := a4Long, height := Double.round (59528 / 100), content := [1] }) ∧
      a4Long = Double.finite (7405342754466693 / 8796093022208) ∧
      doubleEnv.widthOfTextAtSize doubleFont "Alice" (doubleEnv.num.lit 12) =
        Except.ok (Double.finite (1528620229771395 / 17592186044416)) ∧
      labelPage doubleEnv doubleFont "Alice" 0 doubleDoc (initialWorld Double) =
        (Except.ok doubleDocLabelled,
          (labelPage doubleEnv doubleFont "Alice" 0 doubleDoc (initialWorld Double)).2) ∧
      ∃ label : TextDraw Double,
        doubleDocLabelled.pages[0]? =
          some { PDFPage.ofParsed
                  { width := a4Long, height := Double.round (59528 / 100), content := [1] } with
                 drawn := (PDFPage.ofParsed
                   { width := a4Long, height := Double.round (59528 / 100),
                     content := [1] }).drawn ++ [label] } ∧
        label.text = "Alice" ∧
        label.options.x =
          Double.sub
            (Double.sub (Double.finite (7405342754466693 / 8796093022208))
              (Double.finite (1528620229771395 / 17592186044416)))
            (Double.round 16) ∧
        Event.drawText doubleDoc.id 0 "Alice" label.options ∈
          (labelPage doubleEnv doubleFont "Alice" 0 doubleDoc (initialWorld Double)).2.trace ∧
        ((1528620229771395 / 17592186044416 : ℚ) ≤ 7405342754466693 / 8796093022208 - 16 →
          Double.le (Double.finite 0) label.options.x = true) ∧
        ((7405342754466693 / 8796093022208 : ℚ) - 16 < 1528620229771395 / 17592186044416 →
          Double.le label.options.x (Double.finite 0) = true) :=
  ⟨rfl, by decide!, by decide!, by decide!, by decide!,
    label_x_rounded doubleEnv doubleFont "Alice" 0 doubleDoc doubleDocLabelled
      (initialWorld Double)
      (labelPage doubleEnv doubleFont "Alice" 0 doubleDoc (initialWorld Double)).2
      (PDFPage.ofParsed
        { width := a4Long, height := Double.round (59528 / 100), content := [1] })
      (7405342754466693 / 8796093022208) (1528620229771395 / 17592186044416)
      rfl (by decide!) (by decide!) (by decide!) (by decide!)⟩

end PdfLabeler
